import Mathlib

/-!
Verification development for the CodeHarbor executor core.

The JavaScript sources are embedded shallowly:

* the sandbox runner's child-process close handler
  (`executionService.executeCode`, `part_007`) over a model of `JSON.parse`;
* the dependency extractor and its regular expressions
  (`dependencyService.extractDependencies`, `part_006`) over a small
  backtracking regex engine transcribing the source patterns;
* the size parser/formatter (`cacheService.parseFileSize` /
  `formatFileSize`), with JavaScript numbers modelled as exact rationals
  (all values exercised here are dyadic and below 2^53, where doubles are
  exact);
* the cache sweep (`cacheService.cleanupCache`) and the cache
  repopulation step of `dependencyService.installDependencies` over lists
  of cache entries;
* the workspace pruner (`executionService.createExecutionDir` /
  `pruneOldExecutionDirs` / `cleanupExecutionDir`);
* the request orchestrator (`executionController.executeCode`) and the
  dependency resolver as state-and-effect-trace functions over an abstract
  file-system world.

Fallible JavaScript code is modelled with `Option`/`Except`; thrown
exceptions that the source catches are folded into the corresponding
branch.
-/

/-! ## Characters that the token rules make awkward to write literally -/

def lbraceChar : Char := Char.ofNat 123

def rbraceChar : Char := Char.ofNat 125

def dquoteChar : Char := Char.ofNat 34

def squoteChar : Char := Char.ofNat 39

/-! ## JSON values

A JavaScript number produced by `JSON.parse` is modelled exactly as the
decimal-scientific value `mant * 10 ^ ex` of its literal (`JSON.parse`
itself rounds to IEEE doubles; on the values appearing here the two
agree).  Distinct spellings of the same number get distinct
representatives, which no claim depends on. -/

inductive JValue where
  | jnull : JValue
  | jbool : Bool → JValue
  | jnum : Int → Int → JValue
  | jstr : String → JValue
  | jarr : List JValue → JValue
  | jobj : List (String × JValue) → JValue

/-- Assignment to a key of a JavaScript object: an existing key keeps its
position and gets the new value, a fresh key is appended. -/
def jsObjSet : List (String × JValue) → String → JValue → List (String × JValue)
  | [], k, v => [(k, v)]
  | (k1, v1) :: fs, k, v =>
    if k1 = k then (k1, v) :: fs else (k1, v1) :: jsObjSet fs k v

/-- Property lookup on a JavaScript object (first binding wins; duplicate
keys never arise because construction goes through `jsObjSet`). -/
def jlookup : List (String × JValue) → String → Option JValue
  | [], _ => none
  | (k1, v1) :: fs, k => if k1 = k then some v1 else jlookup fs k

/-! ## A model of `JSON.parse` -/

def isJsonWs (c : Char) : Bool :=
  c = ' ' || c = Char.ofNat 9 || c = Char.ofNat 10 || c = Char.ofNat 13

def skipJsonWs : List Char → List Char
  | [] => []
  | c :: cs => if isJsonWs c then skipJsonWs cs else c :: cs

def hexDigitVal (c : Char) : Option Nat :=
  if '0' ≤ c ∧ c ≤ '9' then some (c.toNat - 48)
  else if 'a' ≤ c ∧ c ≤ 'f' then some (c.toNat - 87)
  else if 'A' ≤ c ∧ c ≤ 'F' then some (c.toNat - 55)
  else none

/-- Body of a JSON string literal, after the opening quote.  Returns the
decoded characters and the input following the closing quote.  A `\uXXXX`
escape in the surrogate range is not representable as a Lean `Char` and
falls back to `Char.ofNat`'s default; no input in this development uses
one. -/
def jsonStringBody : Nat → List Char → Option (List Char × List Char)
  | 0, _ => none
  | _, [] => none
  | fuel + 1, c :: cs =>
    if c = dquoteChar then some ([], cs)
    else if c = '\\' then
      match cs with
      | [] => none
      | e :: cs2 =>
        let esc : Option (Char × List Char) :=
          if e = dquoteChar then some (dquoteChar, cs2)
          else if e = '\\' then some ('\\', cs2)
          else if e = '/' then some ('/', cs2)
          else if e = 'b' then some (Char.ofNat 8, cs2)
          else if e = 'f' then some (Char.ofNat 12, cs2)
          else if e = 'n' then some (Char.ofNat 10, cs2)
          else if e = 'r' then some (Char.ofNat 13, cs2)
          else if e = 't' then some (Char.ofNat 9, cs2)
          else if e = 'u' then
            match cs2 with
            | h1 :: h2 :: h3 :: h4 :: cs3 =>
              match hexDigitVal h1, hexDigitVal h2, hexDigitVal h3, hexDigitVal h4 with
              | some a, some b, some c3, some d =>
                some (Char.ofNat (((a * 16 + b) * 16 + c3) * 16 + d), cs3)
              | _, _, _, _ => none
            | _ => none
          else none
        match esc with
        | some (ch, rest) => (jsonStringBody fuel rest).map (fun p => (ch :: p.1, p.2))
        | none => none
    else if c.toNat < 32 then none
    else (jsonStringBody fuel cs).map (fun p => (c :: p.1, p.2))

def splitDigits : List Char → List Char × List Char
  | [] => ([], [])
  | c :: cs =>
    if '0' ≤ c ∧ c ≤ '9' then
      let p := splitDigits cs
      (c :: p.1, p.2)
    else ([], c :: cs)

def digitsToNat (ds : List Char) : Nat :=
  ds.foldl (fun a c => a * 10 + (c.toNat - 48)) 0

/-- A JSON numeric literal: `-?(0|[1-9][0-9]*)(\.[0-9]+)?([eE][+-]?[0-9]+)?`.
Returns `(mant, ex)` denoting `mant * 10 ^ ex`. -/
def jsonNumber (cs : List Char) : Option ((Int × Int) × List Char) :=
  let p0 : Bool × List Char :=
    match cs with
    | c :: rest => if c = '-' then (true, rest) else (false, cs)
    | [] => (false, [])
  let neg := p0.1
  let p1 := splitDigits p0.2
  let ipart := p1.1
  if ipart = [] then none
  else if 1 < ipart.length ∧ ipart.headD ' ' = '0' then none
  else
    let step1 : Option ((Nat × Nat) × List Char) :=
      match p1.2 with
      | d :: rest =>
        if d = '.' then
          let p2 := splitDigits rest
          if p2.1 = [] then none
          else some ((digitsToNat p2.1, p2.1.length), p2.2)
        else some ((0, 0), p1.2)
      | [] => some ((0, 0), [])
    match step1 with
    | none => none
    | some ((fracn, fraclen), cs3) =>
      let step2 : Option (Int × List Char) :=
        match cs3 with
        | e :: rest =>
          if e = 'e' ∨ e = 'E' then
            let p3 : Bool × List Char :=
              match rest with
              | s :: r2 =>
                if s = '-' then (true, r2)
                else if s = '+' then (false, r2)
                else (false, rest)
              | [] => (false, [])
            let p4 := splitDigits p3.2
            if p4.1 = [] then none
            else
              some ((if p3.1 then -(digitsToNat p4.1 : Int) else (digitsToNat p4.1 : Int)), p4.2)
          else some (0, cs3)
        | [] => some (0, [])
      match step2 with
      | none => none
      | some (ex, cs4) =>
        let mant : Int := (digitsToNat ipart * 10 ^ fraclen + fracn : Nat)
        some (((if neg then -mant else mant), ex - fraclen), cs4)

/-- Fold duplicate keys of an object literal the way JavaScript object
assignment does (last value, first position). -/
def dedupFields (raw : List (String × JValue)) : List (String × JValue) :=
  raw.foldl (fun acc p => jsObjSet acc p.1 p.2) []

mutual

def jsonValue : Nat → List Char → Option (JValue × List Char)
  | 0, _ => none
  | fuel + 1, cs =>
    match skipJsonWs cs with
    | [] => none
    | c :: rest =>
      if c = 'n' then
        match rest with
        | 'u' :: 'l' :: 'l' :: cs2 => some (.jnull, cs2)
        | _ => none
      else if c = 't' then
        match rest with
        | 'r' :: 'u' :: 'e' :: cs2 => some (.jbool true, cs2)
        | _ => none
      else if c = 'f' then
        match rest with
        | 'a' :: 'l' :: 's' :: 'e' :: cs2 => some (.jbool false, cs2)
        | _ => none
      else if c = dquoteChar then
        (jsonStringBody (rest.length + 1) rest).map (fun p => (JValue.jstr (String.mk p.1), p.2))
      else if c = '[' then
        match jsonElems fuel rest with
        | some (vs, cs2) => some (.jarr vs, cs2)
        | none => none
      else if c = lbraceChar then
        match jsonMembers fuel rest with
        | some (raw, cs2) => some (.jobj (dedupFields raw), cs2)
        | none => none
      else if c = '-' ∨ ('0' ≤ c ∧ c ≤ '9') then
        (jsonNumber (c :: rest)).map (fun p => (JValue.jnum p.1.1 p.1.2, p.2))
      else none

def jsonElems : Nat → List Char → Option (List JValue × List Char)
  | 0, _ => none
  | fuel + 1, cs =>
    match skipJsonWs cs with
    | c :: rest =>
      if c = ']' then some ([], rest)
      else
        match jsonValue fuel cs with
        | none => none
        | some (v, cs2) =>
          match jsonElemsTail fuel cs2 with
          | some (vs, cs3) => some (v :: vs, cs3)
          | none => none
    | [] => none

def jsonElemsTail : Nat → List Char → Option (List JValue × List Char)
  | 0, _ => none
  | fuel + 1, cs =>
    match skipJsonWs cs with
    | c :: rest =>
      if c = ',' then
        match jsonValue fuel rest with
        | none => none
        | some (v, cs2) =>
          match jsonElemsTail fuel cs2 with
          | some (vs, cs3) => some (v :: vs, cs3)
          | none => none
      else if c = ']' then some ([], rest)
      else none
    | [] => none

def jsonMembers : Nat → List Char → Option (List (String × JValue) × List Char)
  | 0, _ => none
  | fuel + 1, cs =>
    match skipJsonWs cs with
    | c :: rest =>
      if c = rbraceChar then some ([], rest)
      else
        match jsonMember fuel cs with
        | none => none
        | some (kv, cs2) =>
          match jsonMembersTail fuel cs2 with
          | some (kvs, cs3) => some (kv :: kvs, cs3)
          | none => none
    | [] => none

def jsonMembersTail : Nat → List Char → Option (List (String × JValue) × List Char)
  | 0, _ => none
  | fuel + 1, cs =>
    match skipJsonWs cs with
    | c :: rest =>
      if c = ',' then
        match jsonMember fuel rest with
        | none => none
        | some (kv, cs2) =>
          match jsonMembersTail fuel cs2 with
          | some (kvs, cs3) => some (kv :: kvs, cs3)
          | none => none
      else if c = rbraceChar then some ([], rest)
      else none
    | [] => none

def jsonMember : Nat → List Char → Option ((String × JValue) × List Char)
  | 0, _ => none
  | fuel + 1, cs =>
    match skipJsonWs cs with
    | c :: rest =>
      if c = dquoteChar then
        match jsonStringBody (rest.length + 1) rest with
        | none => none
        | some (key, cs2) =>
          match skipJsonWs cs2 with
          | ':' :: cs3 =>
            match jsonValue fuel cs3 with
            | none => none
            | some (v, cs4) => some ((String.mk key, v), cs4)
          | _ => none
      else none
    | [] => none

end

/-- Model of `JSON.parse`: whole-input parse, `none` models a thrown
`SyntaxError`. -/
def jsonParse (s : String) : Option JValue :=
  match jsonValue (8 * (s.length + 4)) s.data with
  | some (v, rest) => if skipJsonWs rest = [] then some v else none
  | none => none

/-! ## The sandbox runner's close handler (`part_007`, lines 272-341)

`executeCode` buffers the child's stdout and stderr and classifies the
outcome in the `close` listener.  The handler is modelled for
`collectDebugInfo = false`; the debug-telemetry merge is orthogonal to the
outcome classification.  The child's exit `code` is `null` when the child
was killed by a signal, hence `Option Int`. -/

inductive RunnerResult where
  | resolved : JValue → RunnerResult
  | rejected : JValue → RunnerResult

/-- JavaScript truthiness of `result.console` (an absent property reads as
`undefined`, which is falsy). -/
def jsFalsyProp : Option JValue → Bool
  | none => true
  | some .jnull => true
  | some (.jbool b) => !b
  | some (.jnum m _) => decide (m = 0)
  | some (.jstr s) => decide (s = "")
  | some (.jarr _) => false
  | some (.jobj _) => false

/-- The `if (!result.console) result.console = [];` step of the success
branch, run inside the surrounding `try`.  On `null` the property read
throws a `TypeError` (caught by the `catch`, yielding `none` here).  On a
primitive the sloppy-mode assignment is a silent no-op; on an array it
attaches an expando property that `JSON.stringify` drops again, so the
JSON-observable value is unchanged. -/
def tryEnsureConsole : JValue → Option JValue
  | .jnull => none
  | .jobj fs =>
    some (.jobj (if jsFalsyProp (jlookup fs "console") then
      jsObjSet fs "console" (.jarr []) else fs))
  | v => some v

/-- The response synthesised when stdout does not parse (or the
console-ensuring step throws). -/
def invalidOutputFailure (stdoutBuf : String) : JValue :=
  .jobj [("success", .jbool false), ("error", .jstr "Invalid output format"),
    ("stdout", .jstr stdoutBuf), ("console", .jarr [])]

/-- The response synthesised when stderr does not parse:
`error: stderr || 'Unknown execution error'`. -/
def stderrFallbackFailure (stderrBuf : String) : JValue :=
  .jobj [("success", .jbool false),
    ("error", .jstr (if stderrBuf = "" then "Unknown execution error" else stderrBuf)),
    ("console", .jarr [])]

/-- The `close` listener of `executeCode`: branch on
`code !== 0 || stderr`, parse the relevant buffer, fall back to a
synthesised failure record when the parse throws. -/
def closeHandler (exitCode : Option Int) (stdoutBuf stderrBuf : String) : RunnerResult :=
  if exitCode ≠ some 0 ∨ stderrBuf ≠ "" then
    match jsonParse stderrBuf with
    | some v => .rejected v
    | none => .rejected (stderrFallbackFailure stderrBuf)
  else
    match jsonParse stdoutBuf with
    | some v =>
      match tryEnsureConsole v with
      | some v2 => .resolved v2
      | none => .rejected (invalidOutputFailure stdoutBuf)
    | none => .rejected (invalidOutputFailure stdoutBuf)

/-- Whether a result value carries a `console` field holding an array. -/
def hasConsoleArray : JValue → Bool
  | .jobj fs =>
    match jlookup fs "console" with
    | some (.jarr _) => true
    | _ => false
  | _ => false

example : jsonParse "" = none := by rfl

example : jsonParse "\x7b\"a\":1\x7d" = some (.jobj [("a", .jnum 1 0)]) := by rfl

example :
    closeHandler (some 0) "" "\x7b\"success\":false,\"error\":\"x\"\x7d" =
      .rejected (.jobj [("success", .jbool false), ("error", .jstr "x")]) := by rfl

/-! ## A backtracking regex engine

`part_006` drives extraction with JavaScript regexes.  `Rx` transcribes
the source patterns; `rxRun` is a continuation-passing backtracking
matcher (greedy `star`, leftmost search), with fuel to bound the
backtracking tree.  The fuel is quadratic in the input and amply covers
every input evaluated concretely in this file; on other inputs exhaustion
merely makes a match attempt fail, which no theorem below relies on. -/

inductive Rx where
  | eps : Rx
  | lit : Char → Rx
  | cls : Bool → List (Char × Char) → Rx
  | seq : Rx → Rx → Rx
  | alt : Rx → Rx → Rx
  | star : Rx → Rx
  | grp : Nat → Rx → Rx

def inRanges (c : Char) (ranges : List (Char × Char)) : Bool :=
  ranges.any (fun r => decide (r.1 ≤ c) && decide (c ≤ r.2))

def clsMatch (neg : Bool) (ranges : List (Char × Char)) (c : Char) : Bool :=
  if neg then !(inRanges c ranges) else inRanges c ranges

/-- Capture list: `(group index, captured text)`, most recent first
(`exec` resets captures per match, so lookups take the head). -/
abbrev Caps := List (Nat × String)

def capLookup (caps : Caps) (n : Nat) : Option String :=
  (caps.find? (fun x => x.1 = n)).map (fun x => x.2)

def rxRun {ρ : Type} (fuel : Nat) (r : Rx) (s : List Char) (caps : Caps)
    (k : List Char → Caps → Option ρ) : Option ρ :=
  match fuel with
  | 0 => none
  | fuel + 1 =>
    match r with
    | .eps => k s caps
    | .lit c =>
      match s with
      | [] => none
      | x :: xs => if x = c then k xs caps else none
    | .cls neg ranges =>
      match s with
      | [] => none
      | x :: xs => if clsMatch neg ranges x then k xs caps else none
    | .seq a b => rxRun fuel a s caps (fun s1 c1 => rxRun fuel b s1 c1 k)
    | .alt a b =>
      match rxRun fuel a s caps k with
      | some res => some res
      | none => rxRun fuel b s caps k
    | .star a =>
      match rxRun fuel a s caps (fun s1 c1 =>
          if s1.length < s.length then rxRun fuel (.star a) s1 c1 k else none) with
      | some res => some res
      | none => k s caps
    | .grp n a =>
      rxRun fuel a s caps (fun s1 c1 =>
        k s1 ((n, String.mk (s.take (s.length - s1.length))) :: c1))

def rxFuel (s : List Char) : Nat :=
  (s.length + 4) * (s.length + 4) * 8

/-- Match `r` at the start of `s`: consumed length and captures. -/
def rxTryAt (r : Rx) (s : List Char) : Option (Nat × Caps) :=
  rxRun (rxFuel s) r s [] (fun s1 c1 => some (s.length - s1.length, c1))

/-- Leftmost match of `r` in `s` (like a non-anchored `exec`):
`(offset, length, captures)`. -/
def rxSearch (r : Rx) : List Char → Option (Nat × Nat × Caps)
  | [] =>
    match rxTryAt r [] with
    | some (len, caps) => some (0, len, caps)
    | none => none
  | c :: cs =>
    match rxTryAt r (c :: cs) with
    | some (len, caps) => some (0, len, caps)
    | none =>
      match rxSearch r cs with
      | some (off, len, caps) => some (off + 1, len, caps)
      | none => none

/-- Repeated `exec` with the `g` flag: scan resumes at each match end
(our patterns never match the empty string; `max len 1` guards the model
against it regardless). -/
def rxGlobal : Nat → Rx → List Char → List Caps
  | 0, _, _ => []
  | n + 1, r, s =>
    match rxSearch r s with
    | none => []
    | some (off, len, caps) => caps :: rxGlobal n r (s.drop (off + max len 1))

/-- All captures of group `g` over the global scan of `src`; an unset
group reads as `undefined`, hence `Option`. -/
def rxGlobalGroup (r : Rx) (g : Nat) (src : String) : List (Option String) :=
  (rxGlobal (src.length + 1) r src.data).map (fun caps => capLookup caps g)

/-! ## The source regexes of `part_006` -/

def rxCat (rs : List Rx) : Rx := rs.foldr Rx.seq Rx.eps

def rxStr (s : String) : Rx := rxCat (s.data.map Rx.lit)

def rxOpt (r : Rx) : Rx := .alt r .eps

def rxPlus (r : Rx) : Rx := .seq r (.star r)

def oneCh (c : Char) : Char × Char := (c, c)

/-- The ranges of JavaScript `\s`. -/
def wsRanges : List (Char × Char) :=
  [(Char.ofNat 9, Char.ofNat 13), oneCh ' ', oneCh (Char.ofNat 160),
    oneCh (Char.ofNat 5760), (Char.ofNat 8192, Char.ofNat 8202),
    (Char.ofNat 8232, Char.ofNat 8233), oneCh (Char.ofNat 8239),
    oneCh (Char.ofNat 8287), oneCh (Char.ofNat 12288), oneCh (Char.ofNat 65279)]

def rxWs : Rx := .cls false wsRanges

/-- The ranges excluded by JavaScript `.` (no `s` flag). -/
def dotExclRanges : List (Char × Char) :=
  [oneCh (Char.ofNat 10), oneCh (Char.ofNat 13), (Char.ofNat 8232, Char.ofNat 8233)]

def rxDot : Rx := .cls true dotExclRanges

def quoteRanges : List (Char × Char) := [oneCh squoteChar, oneCh dquoteChar]

/-- `['"](@?[^'"]+)['"]` (the quoted-specifier part shared by both
extraction regexes, group 1). -/
def rxQuotedSpec : Rx :=
  rxCat [.cls false quoteRanges,
    .grp 1 (rxCat [rxOpt (.lit '@'), rxPlus (.cls true quoteRanges)]),
    .cls false quoteRanges]

/-- `require\s*\(\s*['"](@?[^'"]+)['"]\s*\)` -/
def requireRx : Rx :=
  rxCat [rxStr "require", .star rxWs, .lit '(', .star rxWs, rxQuotedSpec,
    .star rxWs, .lit ')']

/-- One import specifier: `\{[^}]*\}|\*\s+as\s+[^\s]+|[^\s,{}]+` -/
def importSpecAlt : Rx :=
  .alt (rxCat [.lit lbraceChar, .star (.cls true [oneCh rbraceChar]), .lit rbraceChar])
    (.alt (rxCat [.lit '*', rxPlus rxWs, rxStr "as", rxPlus rxWs, rxPlus (.cls true wsRanges)])
      (rxPlus (.cls true (wsRanges ++ [oneCh ',', oneCh lbraceChar, oneCh rbraceChar]))))

/-- `import\s+(?:spec(?:\s*,\s*spec)*\s+from\s+)?['"](@?[^'"]+)['"]`
(the one capturing group of this regex has index 1; the source reads
`match[2]`). -/
def importRx : Rx :=
  rxCat [rxStr "import", rxPlus rxWs,
    rxOpt (rxCat [importSpecAlt,
      .star (rxCat [.star rxWs, .lit ',', .star rxWs, importSpecAlt]),
      rxPlus rxWs, rxStr "from", rxPlus rxWs]),
    rxQuotedSpec]

/-- `(@[^/]+\/[^@]+)(?:@.+)?` (scoped branch of `extractBasePackageName`). -/
def scopedNameRx : Rx :=
  rxCat [.grp 1 (rxCat [.lit '@', rxPlus (.cls true [oneCh '/']), .lit '/',
      rxPlus (.cls true [oneCh '@'])]),
    rxOpt (rxCat [.lit '@', rxPlus rxDot])]

/-- `([^@\s'"]+)(?:@.+)?` (plain branch of `extractBasePackageName`). -/
def plainNameRx : Rx :=
  rxCat [.grp 1 (rxPlus (.cls true ([oneCh '@'] ++ wsRanges ++ quoteRanges))),
    rxOpt (rxCat [.lit '@', rxPlus rxDot])]

/-! ## The dependency extractor (`part_006`, lines 73-133) -/

/-- Kernel-reducible replacement for `String.startsWith` (whose
`Substring` implementation does not reduce); also used on path-component
lists. -/
def listStartsWith {α : Type} [DecidableEq α] : List α → List α → Bool
  | _, [] => true
  | [], _ :: _ => false
  | c :: cs, p :: ps => if c = p then listStartsWith cs ps else false

def strStartsWith (s pat : String) : Bool := listStartsWith s.data pat.data

/-- Kernel-reducible replacement for `String.split` on a single
separator, mirroring JavaScript `split`. -/
def splitOnChar (sep : Char) : List Char → List (List Char)
  | [] => [[]]
  | c :: cs =>
    let r := splitOnChar sep cs
    if c = sep then [] :: r
    else
      match r with
      | h :: t => (c :: h) :: t
      | [] => [[c]]

/-- The `nativeModules` list of `part_006`. -/
def nativeModules : List String :=
  ["assert", "buffer", "child_process", "cluster", "console", "constants",
    "crypto", "dgram", "dns", "domain", "events", "fs", "http", "https",
    "module", "net", "os", "path", "punycode", "querystring", "readline",
    "repl", "stream", "string_decoder", "sys", "timers", "tls", "tty",
    "url", "util", "v8", "vm", "zlib", "process"]

def isNativeModule (name : String) : Bool := nativeModules.any (fun m => m = name)

/-- `extractBasePackageName` of `part_006`: `String.match` takes the first
(leftmost) match; a failed match falls back to the full specifier. -/
def extractBasePackageName (fullName : String) : String :=
  if strStartsWith fullName "@" then
    match rxSearch scopedNameRx fullName.data with
    | some (_, _, caps) => (capLookup caps 1).getD fullName
    | none => fullName
  else
    match rxSearch plainNameRx fullName.data with
    | some (_, _, caps) => (capLookup caps 1).getD fullName
    | none => fullName

/-- The accumulation step of the `require` loop: filter built-ins, then
`dependencies[packageName] = 'latest'`. -/
def addDependency (deps : List (String × String)) (packageName : String) :
    List (String × String) :=
  if isNativeModule packageName then deps
  else if deps.any (fun p => p.1 = packageName) then deps
  else deps ++ [(packageName, "latest")]

/-- `extractDependencies` of `part_006`.  The `require` loop reads
`match[1]` (the quoted-specifier group); the `import` loop reads
`match[2]`, a group the import regex does not define, so its first
iteration calls `extractBasePackageName(undefined)`, whose
`fullName.startsWith` throws a `TypeError` that propagates out of the
function.  `Except.error` models that throw. -/
def extractDependencies (code : String) : Except String (List (String × String)) :=
  let requireDeps :=
    (rxGlobalGroup requireRx 1 code).foldl
      (fun deps m =>
        match m with
        | some fullPackageName => addDependency deps (extractBasePackageName fullPackageName)
        | none => deps)
      []
  match rxGlobalGroup importRx 2 code with
  | [] => Except.ok requireDeps
  | _ :: _ => Except.error "TypeError: undefined has no method startsWith"

instance excDecEq {α β : Type} [DecidableEq α] [DecidableEq β] : DecidableEq (Except α β) :=
  fun a b =>
    match a, b with
    | .ok x, .ok y => if h : x = y then isTrue (by rw [h]) else isFalse (by simp [h])
    | .error x, .error y => if h : x = y then isTrue (by rw [h]) else isFalse (by simp [h])
    | .ok _, .error _ => isFalse (by simp)
    | .error _, .ok _ => isFalse (by simp)

set_option maxRecDepth 100000 in
example :
    extractDependencies "require(\x27@scope/pkg@1.2.3\x27)" =
      Except.ok [("@scope/pkg", "latest")] := by decide

example : extractDependencies "x" = Except.ok [] := by rfl

set_option maxRecDepth 100000 in
example : extractDependencies "require(\x27fs\x27)" = Except.ok [] := by decide

set_option maxRecDepth 100000 in
example :
    extractDependencies "import x from \x27left-pad\x27" =
      Except.error "TypeError: undefined has no method startsWith" := by decide

/-! ## `parseInt(s, 10)` -/

def jsWsDrop (cs : List Char) : List Char :=
  cs.dropWhile (fun c => inRanges c wsRanges)

/-- `parseInt(s, 10)`: skip whitespace, optional sign, longest digit
prefix; `none` models `NaN`. -/
def parseIntJS (s : String) : Option Int :=
  let cs := jsWsDrop s.data
  let p : Bool × List Char :=
    match cs with
    | c :: rest =>
      if c = '-' then (true, rest)
      else if c = '+' then (false, rest)
      else (false, cs)
    | [] => (false, [])
  let d := splitDigits p.2
  if d.1 = [] then none
  else some (if p.1 then -(digitsToNat d.1 : Int) else (digitsToNat d.1 : Int))

/-! ## The size parser and formatter (`cacheService`, second document)

`parseFileSize` matches `^(\d+(?:\.\d+)?)\s*([KMGT]?B)$/i`; on that
pattern greedy matching is deterministic (no character given back by a
greedy repetition can be accepted by what follows), so the match is
hand-rolled.  JavaScript numbers are modelled as exact rationals: every
double arising from the inputs exercised here is a dyadic rational that
ℚ represents exactly. -/

/-- Anchored match of the size regex: returns (numeric part, unit part). -/
def sizeRxMatch (s : String) : Option (List Char × List Char) :=
  let p1 := splitDigits s.data
  if p1.1 = [] then none
  else
    let pFrac : List Char × List Char :=
      match p1.2 with
      | '.' :: rest =>
        let p2 := splitDigits rest
        if p2.1 = [] then ([], p1.2) else ('.' :: p2.1, p2.2)
      | _ => ([], p1.2)
    let afterWs := jsWsDrop pFrac.2
    let isB : Char → Bool := fun c => c = 'B' || c = 'b'
    let isKMGT : Char → Bool := fun c =>
      c = 'K' || c = 'M' || c = 'G' || c = 'T' ||
      c = 'k' || c = 'm' || c = 'g' || c = 't'
    match afterWs with
    | [c1] => if isB c1 then some (p1.1 ++ pFrac.1, [c1]) else none
    | [c1, c2] => if isKMGT c1 && isB c2 then some (p1.1 ++ pFrac.1, [c1, c2]) else none
    | _ => none

def upChar (c : Char) : Char :=
  if 'a' ≤ c ∧ c ≤ 'z' then Char.ofNat (c.toNat - 32) else c

/-- `parseFloat` on the captured group `\d+(\.\d+)?`, exactly. -/
def decCharsToRat (num : List Char) : ℚ :=
  let p := splitDigits num
  match p.2 with
  | '.' :: fr => (digitsToNat p.1 : ℚ) + (digitsToNat fr : ℚ) / (10 : ℚ) ^ fr.length
  | _ => (digitsToNat p.1 : ℚ)

/-- The `units` table; `units[unit] || 1` supplies the default. -/
def unitMultiplier (unit : List Char) : ℚ :=
  if unit = ['B'] then 1
  else if unit = ['K', 'B'] then 1024
  else if unit = ['M', 'B'] then 1024 * 1024
  else if unit = ['G', 'B'] then 1024 * 1024 * 1024
  else if unit = ['T', 'B'] then 1024 * 1024 * 1024 * 1024
  else 1

/-- `parseFileSize` (string input): regex match, else
`parseInt(sizeStr, 10) || 1073741824` (`0` and `NaN` are falsy). -/
def parseFileSize (s : String) : ℚ :=
  match sizeRxMatch s with
  | some (num, unit) => decCharsToRat num * unitMultiplier (unit.map upChar)
  | none =>
    match parseIntJS s with
    | some n => if n = 0 then 1073741824 else (n : ℚ)
    | none => 1073741824

def natDigits : Nat → Nat → List Char
  | 0, _ => []
  | fuel + 1, n =>
    if n < 10 then [Char.ofNat (48 + n)]
    else natDigits fuel (n / 10) ++ [Char.ofNat (48 + n % 10)]

def natToStr (n : Nat) : String := String.mk (natDigits (n + 1) n)

/-- `(b / d).toFixed(2)` for natural `b` and positive `d`: JavaScript
`toFixed` picks the integer `n` minimising `|n / 100 - x|`, preferring
the larger on ties, i.e. `n = ⌊100 * b / d + 1 / 2⌋`.  The doubles
involved are exact for every value exercised here (`d` a power of two,
`b < 2 ^ 53`). -/
def toFixed2Str (b d : Nat) : String :=
  let n := (200 * b + d) / (2 * d)
  natToStr (n / 100) ++ "." ++ (if n % 100 < 10 then "0" else "") ++ natToStr (n % 100)

/-- `formatFileSize` of the source: largest binary unit at which the
value is at least 1, two decimals, integer bytes below 1 KB. -/
def formatFileSize (bytes : Nat) : String :=
  if bytes ≥ 1024 * 1024 * 1024 then toFixed2Str bytes (1024 * 1024 * 1024) ++ " GB"
  else if bytes ≥ 1024 * 1024 then toFixed2Str bytes (1024 * 1024) ++ " MB"
  else if bytes ≥ 1024 then toFixed2Str bytes 1024 ++ " KB"
  else natToStr bytes ++ " bytes"

/-- Distance at most 1% of `b`. -/
def within1pct (x : ℚ) (b : Nat) : Prop := |x - (b : ℚ)| ≤ (b : ℚ) / 100

example : formatFileSize 0 = "0 bytes" := by decide

example : formatFileSize 1048575 = "1024.00 KB" := by decide

example : sizeRxMatch "1024.00 KB" = some (['1','0','2','4','.','0','0'], ['K','B']) := by decide

example : parseIntJS "0 bytes" = some 0 := by decide

/-! ## The cache sweep (`cacheService.cleanupCache`, lines 44-94)

A cache entry is observed as key, on-disk size and mtime (milliseconds).
`cleanupCache` totals the sizes and, when over the limit, sorts by mtime
ascending (the JavaScript comparator `a.lastModified - b.lastModified`)
and removes entries front-to-back, breaking as soon as
`freedSize >= sizeToFree`. -/

structure CacheEntry where
  key : String
  size : Nat
  mtime : Int
deriving DecidableEq, Repr

def entryTotalSize (es : List CacheEntry) : Nat := (es.map (fun e => e.size)).sum

def mtimeLe (a b : CacheEntry) : Prop := a.mtime ≤ b.mtime

instance : DecidableRel mtimeLe := fun a b => Int.decLe a.mtime b.mtime

instance : IsTotal CacheEntry mtimeLe := ⟨fun a b => Int.le_total a.mtime b.mtime⟩

instance : IsTrans CacheEntry mtimeLe := ⟨fun _ _ _ h1 h2 => le_trans h1 h2⟩

def sortByMtime (es : List CacheEntry) : List CacheEntry :=
  List.insertionSort mtimeLe es

/-- `sizeToFree = totalSize - cacheSizeLimit + cacheSizeLimit * 0.2`
(the double `0.2` differs from `1/5` by well under one part in `10^15`;
no claim tests a boundary that fine). -/
def cleanupTarget (total : Nat) (limit : ℚ) : ℚ :=
  (total : ℚ) - limit + limit * (2 / 10)

/-- The deletion loop: returns (deleted, kept).  Each iteration removes
an entry, adds its size to `freedSize`, and breaks once
`freedSize >= sizeToFree`. -/
def evictLoop (target : ℚ) : ℚ → List CacheEntry → List CacheEntry × List CacheEntry
  | _, [] => ([], [])
  | freed, e :: rest =>
    let freed2 := freed + (e.size : ℚ)
    if target ≤ freed2 then ([e], rest)
    else
      let res := evictLoop target freed2 rest
      (e :: res.1, res.2)

/-- `cleanupCache`: (deleted entries, surviving entries). -/
def cleanupCache (es : List CacheEntry) (limit : ℚ) : List CacheEntry × List CacheEntry :=
  if limit < (entryTotalSize es : ℚ) then
    evictLoop (cleanupTarget (entryTotalSize es) limit) 0 (sortByMtime es)
  else ([], es)

/-- The cache-repopulation step of `installDependencies` (lines 311-343)
at cache-entry granularity: remove any prior entry for the key, run
`cleanupCache`, then copy the freshly installed tree in as the new
entry. -/
def installRepopulate (es : List CacheEntry) (limit : ℚ) (key : String)
    (newSize : Nat) (newMtime : Int) : List CacheEntry :=
  let without := es.filter (fun e => e.key ≠ key)
  let kept := (cleanupCache without limit).2
  kept ++ [⟨key, newSize, newMtime⟩]

/-! ## The workspace pruner (`part_007`, lines 20-101 and 373-386) -/

structure ExecDirEnt where
  name : String
  isDir : Bool
deriving DecidableEq, Repr

/-- `parseInt(dir.name.split('-')[1], 10) || 0`. -/
def execNameTimestamp (name : String) : Int :=
  match splitOnChar '-' name.data with
  | _ :: t :: _ => (parseIntJS (String.mk t)).getD 0
  | _ => 0

def tsLe (a b : String × Int) : Prop := a.2 ≤ b.2

instance : DecidableRel tsLe := fun a b => Int.decLe a.2 b.2

instance : IsTotal (String × Int) tsLe := ⟨fun a b => Int.le_total a.2 b.2⟩

instance : IsTrans (String × Int) tsLe := ⟨fun _ _ _ h1 h2 => le_trans h1 h2⟩

/-- `getExecutionDirs`: keep directories whose name starts with `exec-`,
parse the millisecond component, sort ascending (oldest first). -/
def getExecutionDirs (entries : List ExecDirEnt) : List (String × Int) :=
  List.insertionSort tsLe
    ((entries.filter (fun e => e.isDir && strStartsWith e.name "exec-")).map
      (fun e => (e.name, execNameTimestamp e.name)))

/-- Survivors of `pruneOldExecutionDirs`: a non-positive retention count
prunes nothing; otherwise everything before the newest `maxN` entries is
deleted. -/
def pruneSurvivors (maxN : Int) (entries : List ExecDirEnt) : List (String × Int) :=
  if maxN ≤ 0 then getExecutionDirs entries
  else
    let dirs := getExecutionDirs entries
    if (dirs.length : Int) > maxN then dirs.drop (dirs.length - maxN.toNat) else dirs

/-- The entries `pruneOldExecutionDirs` deletes (`slice(0, length - maxN)`). -/
def pruneDeleted (maxN : Int) (entries : List ExecDirEnt) : List (String × Int) :=
  if maxN ≤ 0 then []
  else
    let dirs := getExecutionDirs entries
    if (dirs.length : Int) > maxN then dirs.take (dirs.length - maxN.toNat) else []

/-- `createExecutionDir`: make the new workspace directory, then prune. -/
def allocThenPrune (maxN : Int) (entries : List ExecDirEnt) (newName : String) :
    List (String × Int) :=
  pruneSurvivors maxN (entries ++ [⟨newName, true⟩])

/-- `cleanupExecutionDir`: retained under a positive retention count,
deleted otherwise. -/
def cleanupExecutionDir (maxN : Int) (entries : List ExecDirEnt) (ws : String) :
    List ExecDirEnt :=
  if maxN > 0 then entries else entries.filter (fun e => e.name ≠ ws)

/-! ## File-system world and effect traces

The resolver (`part_006`, `installDependencies`) and the orchestrator
(`executionController.executeCode`) are modelled as functions from an
abstract file-system world — path existence, with paths as component
lists — to a result, an updated world and a trace of the I/O effects
performed.  Oracles in the environment decide the outcomes the model
does not track in the world (symlink permission, package-manager
success, package metadata contents).  `cleanupCache` appears as the
opaque `sweepFx`: at the moment it runs, the entry for the current key
never exists (it was just removed, or was absent), and no claim observes
the other entries it may evict — their quantitative behaviour is covered
by the `CacheEntry`-level model above. -/

structure FsWorld where
  pathExists : List String → Bool

def FsWorld.addPath (w : FsWorld) (p : List String) : FsWorld :=
  ⟨fun q => if q = p then true else w.pathExists q⟩

def FsWorld.rmTree (w : FsWorld) (p : List String) : FsWorld :=
  ⟨fun q => if listStartsWith q p then false else w.pathExists q⟩

inductive Effect where
  | accessFx : List String → Effect
  | readFx : List String → Effect
  | writeFx : List String → Effect
  | mkdirFx : List String → Effect
  | rmFx : List String → Effect
  | symlinkFx : List String → List String → Effect
  | copyFx : List String → List String → Effect
  | pmConfigFx : Effect
  | pmInstallFx : Effect
  | sweepFx : Effect
  | readCacheDirFx : Effect
  | statCacheEntryFx : String → Effect
  | mkWorkspaceFx : String → Effect
  | pruneFx : Effect
  | spawnNodeFx : Effect
deriving DecidableEq, Repr

/-- Effects that read or write under the cache root (`sweepFx`,
`readCacheDirFx` and `statCacheEntryFx` operate on the cache root by
definition). -/
def effectTouchesCache (cacheRoot : List String) : Effect → Bool
  | .accessFx p => listStartsWith p cacheRoot
  | .readFx p => listStartsWith p cacheRoot
  | .writeFx p => listStartsWith p cacheRoot
  | .mkdirFx p => listStartsWith p cacheRoot
  | .rmFx p => listStartsWith p cacheRoot
  | .symlinkFx a b => listStartsWith a cacheRoot || listStartsWith b cacheRoot
  | .copyFx a b => listStartsWith a cacheRoot || listStartsWith b cacheRoot
  | .sweepFx => true
  | .readCacheDirFx => true
  | .statCacheEntryFx _ => true
  | .pmConfigFx => false
  | .pmInstallFx => false
  | .mkWorkspaceFx _ => false
  | .pruneFx => false
  | .spawnNodeFx => false

def isPackageManagerFx : Effect → Bool
  | .pmConfigFx => true
  | .pmInstallFx => true
  | _ => false

/-! ## The dependency resolver (`part_006`, lines 205-393) -/

/-- The `fs.access` probes `checkForMissingDependencies` makes for one
package.  For a scoped name the source does `pkg.split('/')` and probes
scope dir, package dir and its `package.json`; with no `/` present,
`name` is `undefined` and `path.join` throws (caught, hence `none`).
Plain names probe the package dir and its `package.json`. -/
def depProbePaths (cm : List String) (pkg : String) : Option (List (List String)) :=
  if strStartsWith pkg "@" then
    match splitOnChar '/' pkg.data with
    | scope :: name :: _ =>
      some [cm ++ [String.mk scope], cm ++ [String.mk scope, String.mk name],
        cm ++ [String.mk scope, String.mk name, "package.json"]]
    | _ => none
  else some [cm ++ [pkg], cm ++ [pkg, "package.json"]]

def depPresent (w : FsWorld) (cm : List String) (pkg : String) : Bool :=
  match depProbePaths cm pkg with
  | some ps => ps.all w.pathExists
  | none => false

/-- `fs.access` probes stop at the first failure (the `try` aborts). -/
def accessAttempts (w : FsWorld) : List (List String) → List (List String)
  | [] => []
  | p :: rest => p :: (if w.pathExists p then accessAttempts w rest else [])

def checkForMissingDependencies (w : FsWorld) (cm : List String) (pkgs : List String) :
    List String :=
  pkgs.filter (fun p => !(depPresent w cm p))

def checkAccessFx (w : FsWorld) (cm : List String) (pkgs : List String) : List Effect :=
  pkgs.foldr
    (fun p acc =>
      (match depProbePaths cm p with
       | some ps => (accessAttempts w ps).map Effect.accessFx
       | none => []) ++ acc)
    []

inductive InstallOutcome where
  | ok : List (String × String) → InstallOutcome
  | pmFailed : InstallOutcome
deriving DecidableEq, Repr

structure InstallEnv where
  symlinkOk : Bool
  pmCfgOk : Bool
  pmOk : Bool
  pkgVersion : String → Option String

structure InstallRun where
  outcome : InstallOutcome
  fx : List Effect
  world : FsWorld

/-- `getInstalledVersions` of `part_006`: read each package's
`package.json` under the workspace `node_modules`; a failed read yields
`'unknown'`.  Returns the version map and the read effects. -/
def getInstalledVersions (env : InstallEnv) (codeDir : List String) (pkgs : List String) :
    List (String × String) × List Effect :=
  (pkgs.map (fun p => (p, (env.pkgVersion p).getD "unknown")),
    pkgs.map (fun p => Effect.readFx (codeDir ++ ["node_modules", p, "package.json"])))

/-- The fresh-install path: write `package.json`, configure the pnpm
store (a directory under the cache path), run `pnpm install`, read the
installed versions, and — unless `forceUpdate` — remove any prior cache
entry, sweep, and copy the new tree into the cache. -/
def freshInstall (env : InstallEnv) (w : FsWorld) (deps : List (String × String))
    (codeDir cachePath : List String) (forceUpdate : Bool) (preFx : List Effect) : InstallRun :=
  let cacheModulesPath := cachePath ++ ["node_modules"]
  let targetNodeModules := codeDir ++ ["node_modules"]
  let pkgs := deps.map (fun p => p.1)
  let fx1 := preFx ++ [Effect.writeFx (codeDir ++ ["package.json"])]
  let w1 := w.addPath (codeDir ++ ["package.json"])
  let storeDir := cachePath ++ ["pnpm-store"]
  let fx2 := fx1 ++ [Effect.mkdirFx storeDir, Effect.pmConfigFx]
  let w2 := w1.addPath storeDir
  if !env.pmCfgOk then ⟨.pmFailed, fx2, w2⟩
  else
    let fx3 := fx2 ++ [Effect.pmInstallFx]
    if !env.pmOk then ⟨.pmFailed, fx3, w2⟩
    else
      let w3 := w2.addPath targetNodeModules
      let vfx := getInstalledVersions env codeDir pkgs
      let fx4 := fx3 ++ vfx.2
      if forceUpdate then ⟨.ok vfx.1, fx4, w3⟩
      else
        let cacheDirExisted := w3.pathExists cachePath
        let w4 := if cacheDirExisted then w3.rmTree cachePath else w3
        let fx5 := fx4 ++ [Effect.accessFx cachePath] ++
          (if cacheDirExisted then [Effect.rmFx cachePath] else []) ++
          [Effect.sweepFx, Effect.mkdirFx cachePath,
            Effect.copyFx targetNodeModules cacheModulesPath]
        let w5 := (w4.addPath cachePath).addPath cacheModulesPath
        ⟨.ok vfx.1, fx5, w5⟩

/-- `installDependencies` of `part_006`: empty set → immediate success;
`forceUpdate` skips the cache probe; otherwise reuse the cache entry
when every package passes the completeness check, symlinking (or, if
symlinking fails, copying) it into the workspace; anything else falls
through to the fresh-install path. -/
def installDependenciesM (env : InstallEnv) (w : FsWorld) (deps : List (String × String))
    (codeDir cachePath : List String) (forceUpdate : Bool) : InstallRun :=
  let cacheModulesPath := cachePath ++ ["node_modules"]
  let targetNodeModules := codeDir ++ ["node_modules"]
  if deps.length = 0 then ⟨.ok [], [], w⟩
  else if forceUpdate then
    freshInstall env w deps codeDir cachePath true []
  else if w.pathExists cacheModulesPath then
    let pkgs := deps.map (fun p => p.1)
    let missing := checkForMissingDependencies w cacheModulesPath pkgs
    let preFx := [Effect.accessFx cacheModulesPath] ++ checkAccessFx w cacheModulesPath pkgs
    if missing = [] then
      let vfx := getInstalledVersions env codeDir pkgs
      if env.symlinkOk then
        ⟨.ok vfx.1,
          preFx ++ [Effect.symlinkFx cacheModulesPath targetNodeModules] ++ vfx.2,
          w.addPath targetNodeModules⟩
      else
        ⟨.ok vfx.1,
          preFx ++ [Effect.symlinkFx cacheModulesPath targetNodeModules,
            Effect.copyFx cacheModulesPath targetNodeModules] ++ vfx.2,
          w.addPath targetNodeModules⟩
    else freshInstall env w deps codeDir cachePath false preFx
  else freshInstall env w deps codeDir cachePath false [Effect.accessFx cacheModulesPath]

/-! ## The request orchestrator (`executionController.executeCode`) -/

structure ControllerReq where
  code : Option String
  cacheKey : Option String
  debug : Bool
  forceUpdate : Bool

/-- JavaScript falsiness of the destructured request fields (`!code`,
`!cacheKey`): absent or the empty string. -/
def jsFalsyStr : Option String → Bool
  | none => true
  | some s => s = ""

structure ControllerResp where
  status : Nat
  success : Bool
  error : Option String
  usedCache : Option Bool
deriving DecidableEq, Repr

structure ControllerEnv where
  install : InstallEnv
  runnerOk : Bool
  wsName : String
  maxExecutionDirs : Int

structure ControllerRun where
  resp : ControllerResp
  fx : List Effect
  world : FsWorld

/-- `executeCode` of the controller: validate `code` and `cacheKey`
(before any extraction, allocation or cache access), extract
dependencies (outside the `try`, so the import-loop `TypeError` escapes
to the framework), allocate and prune the workspace, read the cache
root for debug telemetry, install, compute
`usedCache = cacheInfo.exists && !forceUpdate` from the post-install
cache state, run the child, and reclaim the workspace when retention is
disabled.  The response records status, success, error and the debug
`usedCache` field; a failed install is answered through the `catch`
branch (`error.error || 'Internal server error'`, here the latter since
the pnpm rejection is a bare `Error`). -/
def controllerExecute (env : ControllerEnv) (w : FsWorld) (cacheRoot execRoot : List String)
    (req : ControllerReq) : ControllerRun :=
  if jsFalsyStr req.code then
    ⟨⟨400, false, some "Code is required", none⟩, [], w⟩
  else if jsFalsyStr req.cacheKey then
    ⟨⟨400, false,
      some "Cache key is required (should be a hash of workflow ID and node name)", none⟩,
      [], w⟩
  else
    let code := (req.code).getD ""
    let cacheKey := (req.cacheKey).getD ""
    match extractDependencies code with
    | .error msg => ⟨⟨500, false, some msg, none⟩, [], w⟩
    | .ok deps =>
      let codeDir := execRoot ++ [env.wsName]
      let cachePath := cacheRoot ++ [cacheKey]
      let fx0 := [Effect.mkWorkspaceFx env.wsName, Effect.pruneFx]
      let w0 := w.addPath codeDir
      let fx1 := fx0 ++ (if req.debug then [Effect.readCacheDirFx] else [])
      let run := installDependenciesM env.install w0 deps codeDir cachePath req.forceUpdate
      let cleanupFx : List Effect :=
        if env.maxExecutionDirs > 0 then [] else [Effect.rmFx codeDir]
      let cleanupW : FsWorld → FsWorld := fun wx =>
        if env.maxExecutionDirs > 0 then wx else wx.rmTree codeDir
      match run.outcome with
      | .pmFailed =>
        ⟨⟨200, false, some "Internal server error", if req.debug then some false else none⟩,
          fx1 ++ run.fx ++ cleanupFx, cleanupW run.world⟩
      | .ok _ =>
        let usedCache :=
          if req.debug then some (run.world.pathExists cachePath && !req.forceUpdate) else none
        let fx2 := fx1 ++ run.fx ++
          (if req.debug then [Effect.statCacheEntryFx cacheKey, Effect.readCacheDirFx] else []) ++
          [Effect.spawnNodeFx] ++ cleanupFx
        ⟨⟨200, env.runnerOk, if env.runnerOk then none else some "execution failed", usedCache⟩,
          fx2, cleanupW run.world⟩

/-- Field access on an object result (used to state what the synthesised
failure records carry). -/
def jgetField (v : JValue) (k : String) : Option JValue :=
  match v with
  | .jobj fs => jlookup fs k
  | _ => none

/-- Total size of a cache-entry list as a rational (the JavaScript
accumulator is a number). -/
def sumQ (es : List CacheEntry) : ℚ :=
  (es.map (fun e => (e.size : ℚ))).sum

/-! ## Helper lemmas -/

theorem jlookup_jsObjSet_self (fs : List (String × JValue)) (k : String) (v : JValue) :
    jlookup (jsObjSet fs k v) k = some v := by
  induction fs with
  | nil => simp [jsObjSet, jlookup]
  | cons p fs ih =>
    obtain ⟨k1, v1⟩ := p
    by_cases h : k1 = k
    · simp [jsObjSet, jlookup, h]
    · simp [jsObjSet, jlookup, h, ih]

theorem sumQ_eq_cast (es : List CacheEntry) : (entryTotalSize es : ℚ) = sumQ es := by
  induction es with
  | nil => simp [entryTotalSize, sumQ]
  | cons e es ih =>
    simp [entryTotalSize, sumQ] at ih ⊢
    rw [ih]

theorem sumQ_append (l1 l2 : List CacheEntry) : sumQ (l1 ++ l2) = sumQ l1 + sumQ l2 := by
  simp [sumQ]

theorem sumQ_nonneg (l : List CacheEntry) : 0 ≤ sumQ l := by
  induction l with
  | nil => simp [sumQ]
  | cons e es ih =>
    simp only [sumQ, List.map_cons, List.sum_cons]
    have : (0 : ℚ) ≤ (e.size : ℚ) := by positivity
    simp only [sumQ] at ih
    linarith

theorem sumQ_perm {l1 l2 : List CacheEntry} (h : l1.Perm l2) : sumQ l1 = sumQ l2 :=
  List.Perm.sum_eq (h.map _)

/-- Two prefixes of the same list are comparable. -/
theorem startsWith_comparable {α : Type} [DecidableEq α] :
    ∀ (s a b : List α), listStartsWith s a = true → listStartsWith s b = true →
      listStartsWith a b = true ∨ listStartsWith b a = true := by
  intro s
  induction s with
  | nil =>
    intro a b ha hb
    cases a <;> cases b <;> simp_all [listStartsWith]
  | cons c cs ih =>
    intro a b ha hb
    cases a with
    | nil =>
      right
      cases b <;> simp [listStartsWith]
    | cons a1 as =>
      cases b with
      | nil => left; simp [listStartsWith]
      | cons b1 bs =>
        rw [listStartsWith] at ha hb
        by_cases hca : c = a1
        · by_cases hcb : c = b1
          · subst hca
            rw [if_pos rfl] at ha
            rw [if_pos hcb] at hb
            have := ih as bs ha hb
            rw [listStartsWith, listStartsWith]
            rw [← hcb]
            simp only [if_pos rfl]
            exact this
          · rw [if_pos hca] at ha
            rw [if_neg hcb] at hb
            exact absurd hb (by simp)
        · rw [if_neg hca] at ha
          exact absurd ha (by simp)

theorem listStartsWith_nil {α : Type} [DecidableEq α] (l : List α) :
    listStartsWith l ([] : List α) = true := by
  cases l <;> rfl

/-- A list is never equal to itself extended on the right. -/
theorem ne_append_singleton {α : Type} (l : List α) (a : α) : l ≠ l ++ [a] := by
  intro h
  have := congrArg List.length h
  simp at this

/-! ## Claim C1 -/

/-- C1 (amended).  Outcome classification of the runner's close handler:
with exit code zero and an empty diagnostic buffer, stdout is parsed as
JSON — an object result is resolved with a missing/falsy `console`
replaced by the empty array, a `null` result or a failed parse yields
the synthesised `Invalid output format` record; with a non-zero (or
signal) exit or a non-empty diagnostic buffer, stderr is parsed as JSON
and the parsed record is rejected verbatim (it carries a `console` array
only if the JSON itself did), and a failed parse yields the synthesised
record whose `error` is the diagnostic bytes, or `Unknown execution
error` when the buffer is empty.  The synthesised records always carry
an (empty) `console` array. -/
theorem c1_close_handler_outcomes (exitCode : Option Int) (outBuf errBuf : String) :
    ((exitCode = some 0 ∧ errBuf = "") →
      (jsonParse outBuf = none →
        closeHandler exitCode outBuf errBuf = .rejected (invalidOutputFailure outBuf) ∧
        hasConsoleArray (invalidOutputFailure outBuf) = true) ∧
      (jsonParse outBuf = some .jnull →
        closeHandler exitCode outBuf errBuf = .rejected (invalidOutputFailure outBuf)) ∧
      (∀ fs, jsonParse outBuf = some (.jobj fs) →
        closeHandler exitCode outBuf errBuf =
          .resolved (.jobj (if jsFalsyProp (jlookup fs "console") then
            jsObjSet fs "console" (.jarr []) else fs)) ∧
        (jsFalsyProp (jlookup fs "console") = true →
          hasConsoleArray (.jobj (jsObjSet fs "console" (.jarr []))) = true))) ∧
    ((exitCode ≠ some 0 ∨ errBuf ≠ "") →
      (∀ v, jsonParse errBuf = some v → closeHandler exitCode outBuf errBuf = .rejected v) ∧
      (jsonParse errBuf = none →
        closeHandler exitCode outBuf errBuf = .rejected (stderrFallbackFailure errBuf) ∧
        jgetField (stderrFallbackFailure errBuf) "error" =
          some (.jstr (if errBuf = "" then "Unknown execution error" else errBuf)) ∧
        hasConsoleArray (stderrFallbackFailure errBuf) = true)) := by
  constructor
  · rintro ⟨h0, he⟩
    subst h0
    subst he
    refine ⟨?_, ?_, ?_⟩
    · intro hp
      rw [closeHandler, if_neg (by simp)]
      rw [hp]
      exact ⟨rfl, by simp [hasConsoleArray, invalidOutputFailure, jlookup]⟩
    · intro hp
      rw [closeHandler, if_neg (by simp)]
      rw [hp]
      rfl
    · intro fs hp
      rw [closeHandler, if_neg (by simp)]
      rw [hp]
      refine ⟨rfl, ?_⟩
      intro _
      simp [hasConsoleArray, jlookup_jsObjSet_self]
  · intro hor
    constructor
    · intro v hp
      rw [closeHandler, if_pos hor, hp]
    · intro hp
      rw [closeHandler, if_pos hor, hp]
      refine ⟨rfl, ?_, ?_⟩
      · by_cases he : errBuf = "" <;>
          simp [jgetField, stderrFallbackFailure, jlookup, he]
      · by_cases he : errBuf = "" <;>
          simp [hasConsoleArray, stderrFallbackFailure, jlookup, he]

/-- C1 witness: a non-zero exit with an empty diagnostic buffer yields
the synthesised fallback record with the `Unknown execution error`
message and an empty console array. -/
theorem c1_close_handler_outcomes_witness :
    closeHandler (some 1) "" "" = .rejected (stderrFallbackFailure "") ∧
    jgetField (stderrFallbackFailure "") "error" =
      some (.jstr "Unknown execution error") ∧
    hasConsoleArray (stderrFallbackFailure "") = true := by
  have h := (c1_close_handler_outcomes (some 1) "" "").2 (Or.inl (by decide)) |>.2 (by rfl)
  refine ⟨h.1, ?_, h.2.2⟩
  have h2 := h.2.1
  simpa using h2

/-- C1 counterexample: the child exits 0 but writes a JSON record
without a `console` field to stderr; the close handler rejects the
parsed record verbatim, so the result of this outcome branch carries no
console array, contradicting the claim that every branch does. -/
theorem c1_counterexample :
    closeHandler (some 0) "" "\x7b\"success\":false,\"error\":\"x\"\x7d" =
      .rejected (.jobj [("success", .jbool false), ("error", .jstr "x")]) ∧
    hasConsoleArray (.jobj [("success", .jbool false), ("error", .jstr "x")]) = false := by
  exact ⟨by rfl, by rfl⟩

/-! ## Claim C7 -/

theorem addDependency_good (deps : List (String × String)) (name : String)
    (h : ∀ pv ∈ deps, isNativeModule pv.1 = false ∧ pv.2 = "latest") :
    ∀ pv ∈ addDependency deps name, isNativeModule pv.1 = false ∧ pv.2 = "latest" := by
  intro pv hm
  rw [addDependency] at hm
  by_cases hn : isNativeModule name
  · rw [if_pos hn] at hm
    exact h pv hm
  · rw [if_neg hn] at hm
    by_cases hd : deps.any (fun p => p.1 = name)
    · rw [if_pos hd] at hm
      exact h pv hm
    · rw [if_neg hd] at hm
      rcases List.mem_append.mp hm with h1 | h2
      · exact h pv h1
      · have h3 : pv = (name, "latest") := by simpa using h2
        subst h3
        exact ⟨by simpa using hn, rfl⟩

theorem requireFold_good (ms : List (Option String)) :
    ∀ acc, (∀ pv ∈ acc, isNativeModule pv.1 = false ∧ pv.2 = "latest") →
      ∀ pv ∈ ms.foldl
        (fun deps m =>
          match m with
          | some full => addDependency deps (extractBasePackageName full)
          | none => deps)
        acc, isNativeModule pv.1 = false ∧ pv.2 = "latest" := by
  induction ms with
  | nil =>
    intro acc h
    simpa using h
  | cons m ms ih =>
    intro acc h
    rw [List.foldl_cons]
    cases m with
    | none => exact ih acc h
    | some full => exact ih _ (addDependency_good _ _ h)

set_option maxRecDepth 400000 in
/-- C7.  Whatever the source text, an extracted dependency set never
contains a built-in module name, and every extracted name maps to the
constraint `latest`; on `require('@scope/pkg@1.2.3')` the extracted set
is exactly the canonical scoped name `@scope/pkg` (pinned version
stripped) mapped to `latest`. -/
theorem c7_extractor (code : String) (deps : List (String × String))
    (h : extractDependencies code = .ok deps) :
    (∀ p ∈ deps.map (fun pv => pv.1), p ∉ nativeModules) ∧
    (∀ pv ∈ deps, pv.2 = "latest") ∧
    extractDependencies "require(\x27@scope/pkg@1.2.3\x27)" =
      .ok [("@scope/pkg", "latest")] := by
  have hgood : ∀ pv ∈ deps, isNativeModule pv.1 = false ∧ pv.2 = "latest" := by
    rcases himp : rxGlobalGroup importRx 2 code with _ | ⟨m, ms⟩
    · rw [extractDependencies, himp] at h
      injection h with hdeps
      rw [← hdeps]
      exact requireFold_good _ [] (fun pv hpv => absurd hpv (List.not_mem_nil pv))
    · rw [extractDependencies, himp] at h
      exact absurd h (by simp)
  refine ⟨?_, fun pv hm => (hgood pv hm).2, by decide⟩
  intro p hp
  rcases List.mem_map.mp hp with ⟨pv, hpv, rfl⟩
  have hn := (hgood pv hpv).1
  intro hmem
  rw [isNativeModule] at hn
  rw [List.any_eq_false] at hn
  exact hn pv.1 hmem (by simp)

set_option maxRecDepth 400000 in
/-- C7 witness: the theorem applied to the scoped-specifier scenario. -/
theorem c7_extractor_witness :
    (∀ p ∈ ([("@scope/pkg", "latest")].map (fun pv : String × String => pv.1)),
      p ∉ nativeModules) ∧
    (∀ pv ∈ ([("@scope/pkg", "latest")] : List (String × String)), pv.2 = "latest") := by
  have h := c7_extractor "require(\x27@scope/pkg@1.2.3\x27)" [("@scope/pkg", "latest")]
    (by decide)
  exact ⟨h.1, h.2.1⟩

/-! ## Claim C8 -/

theorem parseFileSize_of_match (s : String) (num unit : List Char)
    (h : sizeRxMatch s = some (num, unit)) :
    parseFileSize s = decCharsToRat num * unitMultiplier (unit.map upChar) := by
  simp [parseFileSize, h]

theorem parseFileSize_of_fallback (s : String) (h : sizeRxMatch s = none) :
    parseFileSize s =
      (match parseIntJS s with
       | some n => if n = 0 then 1073741824 else (n : ℚ)
       | none => 1073741824) := by
  simp [parseFileSize, h]

/-- C8 (amended).  The format/parse round trip is within 1% for the
byte counts 1, 1023, 1024, 1024²−1, 1024² and 5·1024³; the claim's
remaining value 0 formats as `"0 bytes"`, which the parser sends to the
1 GiB fallback (see the counterexample). -/
theorem c8_roundtrip_amended :
    within1pct (parseFileSize (formatFileSize 1)) 1 ∧
    within1pct (parseFileSize (formatFileSize 1023)) 1023 ∧
    within1pct (parseFileSize (formatFileSize 1024)) 1024 ∧
    within1pct (parseFileSize (formatFileSize (1024 * 1024 - 1))) (1024 * 1024 - 1) ∧
    within1pct (parseFileSize (formatFileSize (1024 * 1024))) (1024 * 1024) ∧
    within1pct (parseFileSize (formatFileSize (5 * 1024 * 1024 * 1024)))
      (5 * 1024 * 1024 * 1024) := by
  refine ⟨?_, ?_, ?_, ?_, ?_, ?_⟩
  · rw [show formatFileSize 1 = "1 bytes" from by decide,
      parseFileSize_of_fallback _ (by decide),
      show parseIntJS "1 bytes" = some 1 from by decide]
    rw [within1pct]
    norm_num
  · rw [show formatFileSize 1023 = "1023 bytes" from by decide,
      parseFileSize_of_fallback _ (by decide),
      show parseIntJS "1023 bytes" = some 1023 from by decide]
    rw [within1pct]
    norm_num
  · rw [show formatFileSize 1024 = "1.00 KB" from by decide,
      parseFileSize_of_match _ (['1', '.', '0', '0']) (['K', 'B']) (by decide)]
    have hd : decCharsToRat ['1', '.', '0', '0'] = 1 := by
      simp only [decCharsToRat,
        show splitDigits ['1', '.', '0', '0'] = (['1'], ['.', '0', '0']) from by decide,
        show digitsToNat ['1'] = 1 from by decide,
        show digitsToNat ['0', '0'] = 0 from by decide]
      norm_num
    rw [show (['K', 'B'].map upChar) = ['K', 'B'] from by decide, hd,
      show unitMultiplier ['K', 'B'] = 1024 from by rfl]
    rw [within1pct]
    norm_num
  · rw [show formatFileSize (1024 * 1024 - 1) = "1024.00 KB" from by decide,
      parseFileSize_of_match _ (['1', '0', '2', '4', '.', '0', '0']) (['K', 'B']) (by decide)]
    have hd : decCharsToRat ['1', '0', '2', '4', '.', '0', '0'] = 1024 := by
      simp only [decCharsToRat,
        show splitDigits ['1', '0', '2', '4', '.', '0', '0'] =
          (['1', '0', '2', '4'], ['.', '0', '0']) from by decide,
        show digitsToNat ['1', '0', '2', '4'] = 1024 from by decide,
        show digitsToNat ['0', '0'] = 0 from by decide]
      norm_num
    rw [show (['K', 'B'].map upChar) = ['K', 'B'] from by decide, hd,
      show unitMultiplier ['K', 'B'] = 1024 from by rfl]
    rw [within1pct]
    norm_num
  · rw [show formatFileSize (1024 * 1024) = "1.00 MB" from by decide,
      parseFileSize_of_match _ (['1', '.', '0', '0']) (['M', 'B']) (by decide)]
    have hd : decCharsToRat ['1', '.', '0', '0'] = 1 := by
      simp only [decCharsToRat,
        show splitDigits ['1', '.', '0', '0'] = (['1'], ['.', '0', '0']) from by decide,
        show digitsToNat ['1'] = 1 from by decide,
        show digitsToNat ['0', '0'] = 0 from by decide]
      norm_num
    rw [show (['M', 'B'].map upChar) = ['M', 'B'] from by decide, hd,
      show unitMultiplier ['M', 'B'] = 1024 * 1024 from by rfl]
    rw [within1pct]
    norm_num
  · rw [show formatFileSize (5 * 1024 * 1024 * 1024) = "5.00 GB" from by decide,
      parseFileSize_of_match _ (['5', '.', '0', '0']) (['G', 'B']) (by decide)]
    have hd : decCharsToRat ['5', '.', '0', '0'] = 5 := by
      simp only [decCharsToRat,
        show splitDigits ['5', '.', '0', '0'] = (['5'], ['.', '0', '0']) from by decide,
        show digitsToNat ['5'] = 5 from by decide,
        show digitsToNat ['0', '0'] = 0 from by decide]
      norm_num
    rw [show (['G', 'B'].map upChar) = ['G', 'B'] from by decide, hd,
      show unitMultiplier ['G', 'B'] = 1024 * 1024 * 1024 from by rfl]
    rw [within1pct]
    norm_num

/-- C8 counterexample: at byte count 0 the formatter prints `"0 bytes"`,
the regex rejects it, `parseInt` yields the falsy `0`, and the parser
falls back to 1 GiB — not within 1% of 0. -/
theorem c8_counterexample :
    parseFileSize (formatFileSize 0) = 1073741824 ∧
    ¬ within1pct (parseFileSize (formatFileSize 0)) 0 := by
  have h : parseFileSize (formatFileSize 0) = 1073741824 := by
    rw [show formatFileSize 0 = "0 bytes" from by decide,
      parseFileSize_of_fallback _ (by decide),
      show parseIntJS "0 bytes" = some 0 from by decide]
    norm_num
  refine ⟨h, ?_⟩
  rw [h, within1pct]
  norm_num

/-! ## Claims C3 and C4 -/

theorem evictLoop_append (target : ℚ) :
    ∀ (freed : ℚ) (l : List CacheEntry),
      (evictLoop target freed l).1 ++ (evictLoop target freed l).2 = l := by
  intro freed l
  induction l generalizing freed with
  | nil => simp [evictLoop]
  | cons e rest ih =>
    by_cases h : target ≤ freed + (e.size : ℚ)
    · simp [evictLoop, h]
    · simp only [evictLoop, if_neg h]
      simpa using ih (freed + (e.size : ℚ))

theorem evictLoop_reached (target : ℚ) :
    ∀ (freed : ℚ) (l : List CacheEntry),
      (evictLoop target freed l).2 ≠ [] →
        target ≤ freed + sumQ (evictLoop target freed l).1 := by
  intro freed l
  induction l generalizing freed with
  | nil => intro h; simp [evictLoop] at h
  | cons e rest ih =>
    intro h
    by_cases hc : target ≤ freed + (e.size : ℚ)
    · simp only [evictLoop, if_pos hc] at h ⊢
      simp [sumQ]
      linarith
    · simp only [evictLoop, if_neg hc] at h ⊢
      have := ih (freed + (e.size : ℚ)) (by simpa using h)
      simp only [sumQ, List.map_cons, List.sum_cons] at this ⊢
      linarith

theorem evictLoop_minimal (target : ℚ) :
    ∀ (freed : ℚ) (l : List CacheEntry), freed < target →
      ∀ k, k < (evictLoop target freed l).1.length →
        freed + sumQ ((evictLoop target freed l).1.take k) < target := by
  intro freed l
  induction l generalizing freed with
  | nil => intro h k hk; simp [evictLoop] at hk
  | cons e rest ih =>
    intro h k hk
    by_cases hc : target ≤ freed + (e.size : ℚ)
    · simp only [evictLoop, if_pos hc] at hk ⊢
      cases k with
      | zero => simpa [sumQ] using h
      | succ k =>
        simp at hk
    · simp only [evictLoop, if_neg hc] at hk ⊢
      cases k with
      | zero => simpa [sumQ] using h
      | succ k =>
        have hlt : freed + (e.size : ℚ) < target := lt_of_not_le hc
        have := ih (freed + (e.size : ℚ)) hlt k (by simpa using hk)
        simp only [List.take_succ_cons, sumQ, List.map_cons, List.sum_cons] at this ⊢
        linarith

theorem cleanupTarget_pos (es : List CacheEntry) (limit : ℚ)
    (h : limit < (entryTotalSize es : ℚ)) :
    0 < cleanupTarget (entryTotalSize es) limit := by
  rw [cleanupTarget]
  have h0 : (0 : ℚ) ≤ (entryTotalSize es : ℚ) := by positivity
  rcases le_or_lt 0 limit with hl | hl
  · have := mul_nonneg hl (by norm_num : (0 : ℚ) ≤ 2 / 10)
    linarith
  · nlinarith

/-- C3.  The sweep is a no-op at or under budget; over budget it sorts
the entries by mtime ascending and deletes a prefix of that order —
exactly the shortest prefix whose freed bytes reach
`(total − budget) + 20% · budget` (every shorter prefix falls short, and
the target is met whenever any entry survives); consequently no deleted
entry is newer than a surviving one. -/
theorem c3_sweep_policy (es : List CacheEntry) (limit : ℚ) :
    (¬ limit < (entryTotalSize es : ℚ) → cleanupCache es limit = ([], es)) ∧
    (limit < (entryTotalSize es : ℚ) →
      (cleanupCache es limit).1 ++ (cleanupCache es limit).2 = sortByMtime es ∧
      List.Sorted mtimeLe (sortByMtime es) ∧
      (sortByMtime es).Perm es ∧
      ((cleanupCache es limit).2 ≠ [] →
        cleanupTarget (entryTotalSize es) limit ≤ sumQ (cleanupCache es limit).1) ∧
      (∀ k, k < (cleanupCache es limit).1.length →
        sumQ ((cleanupCache es limit).1.take k) < cleanupTarget (entryTotalSize es) limit) ∧
      (∀ d ∈ (cleanupCache es limit).1, ∀ s ∈ (cleanupCache es limit).2,
        d.mtime ≤ s.mtime)) := by
  constructor
  · intro h
    simp [cleanupCache, h]
  · intro h
    have hpos := cleanupTarget_pos es limit h
    have happ := evictLoop_append (cleanupTarget (entryTotalSize es) limit) 0 (sortByMtime es)
    have hsorted : List.Sorted mtimeLe (sortByMtime es) :=
      List.sorted_insertionSort mtimeLe es
    simp only [cleanupCache, if_pos h]
    refine ⟨happ, hsorted, List.perm_insertionSort mtimeLe es, ?_, ?_, ?_⟩
    · intro hne
      have := evictLoop_reached (cleanupTarget (entryTotalSize es) limit) 0 (sortByMtime es) hne
      linarith
    · intro k hk
      have := evictLoop_minimal (cleanupTarget (entryTotalSize es) limit) 0 (sortByMtime es)
        hpos k hk
      linarith
    · intro d hd s hs
      have hsorted2 : List.Pairwise mtimeLe
          ((evictLoop (cleanupTarget (entryTotalSize es) limit) 0 (sortByMtime es)).1 ++
            (evictLoop (cleanupTarget (entryTotalSize es) limit) 0 (sortByMtime es)).2) := by
        rw [happ]
        exact hsorted
      exact (List.pairwise_append.mp hsorted2).2.2 d hd s hs

/-- C3 witness: two entries of sizes 30 and 40 against a budget of 50;
deleting the oldest frees 30 ≥ 70 − 50 + 10, so the newer entry
survives. -/
theorem c3_sweep_policy_witness :
    (cleanupCache [⟨"a", 30, 1⟩, ⟨"b", 40, 2⟩] 50).1 ++
      (cleanupCache [⟨"a", 30, 1⟩, ⟨"b", 40, 2⟩] 50).2 =
      sortByMtime [⟨"a", 30, 1⟩, ⟨"b", 40, 2⟩] ∧
    (∀ d ∈ (cleanupCache [⟨"a", 30, 1⟩, ⟨"b", 40, 2⟩] 50).1,
      ∀ s ∈ (cleanupCache [⟨"a", 30, 1⟩, ⟨"b", 40, 2⟩] 50).2, d.mtime ≤ s.mtime) := by
  have h := (c3_sweep_policy [⟨"a", 30, 1⟩, ⟨"b", 40, 2⟩] 50).2
    (by rw [show entryTotalSize [⟨"a", 30, 1⟩, ⟨"b", 40, 2⟩] = 70 from by decide]; norm_num)
  exact ⟨h.1, h.2.2.2.2.2⟩

theorem cleanup_kept_le (es : List CacheEntry) (limit : ℚ) (h0 : 0 ≤ limit) :
    sumQ (cleanupCache es limit).2 ≤ limit := by
  by_cases h : limit < (entryTotalSize es : ℚ)
  · simp only [cleanupCache, if_pos h]
    by_cases hne : (evictLoop (cleanupTarget (entryTotalSize es) limit) 0 (sortByMtime es)).2 = []
    · rw [hne]
      simpa [sumQ] using h0
    · have hreach := evictLoop_reached (cleanupTarget (entryTotalSize es) limit) 0
        (sortByMtime es) hne
      have happ := evictLoop_append (cleanupTarget (entryTotalSize es) limit) 0 (sortByMtime es)
      have hsum : sumQ (evictLoop (cleanupTarget (entryTotalSize es) limit) 0
            (sortByMtime es)).1 +
          sumQ (evictLoop (cleanupTarget (entryTotalSize es) limit) 0 (sortByMtime es)).2 =
          sumQ es := by
        rw [← sumQ_append, happ]
        exact sumQ_perm (List.perm_insertionSort mtimeLe es)
      have htot : sumQ es = (entryTotalSize es : ℚ) := (sumQ_eq_cast es).symm
      have ht : cleanupTarget (entryTotalSize es) limit =
          (entryTotalSize es : ℚ) - limit + limit * (2 / 10) := rfl
      have hm : 0 ≤ limit * (2 / 10) := mul_nonneg h0 (by norm_num)
      linarith
  · simp only [cleanupCache, if_neg h]
    have := not_lt.mp h
    rw [← sumQ_eq_cast]
    linarith

/-- C4 (amended).  The sweep runs before the freshly installed tree is
copied into the cache, so what it bounds is the pre-existing portion:
after repopulation the total cache size is at most the budget plus the
size of the new entry (the claim's bound of the budget alone fails, see
the counterexample). -/
theorem c4_budget_amended (es : List CacheEntry) (limit : ℚ) (key : String)
    (newSize : Nat) (newMtime : Int) (h0 : 0 ≤ limit) :
    (entryTotalSize (installRepopulate es limit key newSize newMtime) : ℚ) ≤
      limit + (newSize : ℚ) := by
  have hkept := cleanup_kept_le (es.filter (fun e => e.key ≠ key)) limit h0
  rw [sumQ_eq_cast]
  simp only [installRepopulate]
  rw [sumQ_append]
  have hnew : sumQ [⟨key, newSize, newMtime⟩] = (newSize : ℚ) := by simp [sumQ]
  rw [hnew]
  linarith

/-- C4 witness: the amended bound at an empty cache, budget 100 and a
new entry of 150 bytes. -/
theorem c4_budget_amended_witness :
    (entryTotalSize (installRepopulate [] 100 "k" 150 0) : ℚ) ≤ 100 + (150 : ℚ) := by
  have h := c4_budget_amended [] 100 "k" 150 0 (by norm_num)
  simpa using h

/-- C4 counterexample: an install into an empty cache with budget 100
and an entry of 150 bytes grows the cache past the budget, and the
subsequent enumeration still reports 150 > 100 — the sweep ran before
the new entry was copied in. -/
theorem c4_counterexample :
    entryTotalSize ([] : List CacheEntry) = 0 ∧
    installRepopulate [] 100 "k" 150 0 = [⟨"k", 150, 0⟩] ∧
    entryTotalSize (installRepopulate [] 100 "k" 150 0) = 150 ∧
    ¬ ((entryTotalSize (installRepopulate [] 100 "k" 150 0) : ℚ) ≤ 100) := by
  have h1 : installRepopulate [] 100 "k" 150 0 = [⟨"k", 150, 0⟩] := by
    norm_num [installRepopulate, cleanupCache, entryTotalSize]
  refine ⟨rfl, h1, ?_, ?_⟩
  · rw [h1]
    rfl
  · rw [h1]
    norm_num [entryTotalSize]

/-! ## Claim C5 -/

/-- C5.  With a positive retention count N, an allocation enumerates the
`exec-` directories with their parsed millisecond components, sorts them
ascending, and deletes exactly everything before the newest N — so at
most N survive — while `cleanupExecutionDir` retains the workspace; with
N ≤ 0 pruning deletes nothing and `cleanupExecutionDir` instead removes
the workspace after the response. -/
theorem c5_prune_retention (maxN : Int) (entries : List ExecDirEnt) (newName : String) :
    (maxN > 0 →
      ((allocThenPrune maxN entries newName).length : Int) ≤ maxN ∧
      allocThenPrune maxN entries newName =
        (getExecutionDirs (entries ++ [⟨newName, true⟩])).drop
          ((getExecutionDirs (entries ++ [⟨newName, true⟩])).length - maxN.toNat) ∧
      pruneDeleted maxN (entries ++ [⟨newName, true⟩]) =
        (getExecutionDirs (entries ++ [⟨newName, true⟩])).take
          ((getExecutionDirs (entries ++ [⟨newName, true⟩])).length - maxN.toNat) ∧
      List.Sorted tsLe (getExecutionDirs (entries ++ [⟨newName, true⟩])) ∧
      (∀ ws, cleanupExecutionDir maxN entries ws = entries)) ∧
    (maxN ≤ 0 →
      allocThenPrune maxN entries newName = getExecutionDirs (entries ++ [⟨newName, true⟩]) ∧
      pruneDeleted maxN (entries ++ [⟨newName, true⟩]) = [] ∧
      (∀ ws, ∀ e ∈ cleanupExecutionDir maxN entries ws, e.name ≠ ws)) := by
  constructor
  · intro h
    have hnp : ¬ maxN ≤ 0 := by omega
    have hsurv : allocThenPrune maxN entries newName =
        (getExecutionDirs (entries ++ [⟨newName, true⟩])).drop
          ((getExecutionDirs (entries ++ [⟨newName, true⟩])).length - maxN.toNat) := by
      simp only [allocThenPrune, pruneSurvivors, if_neg hnp]
      by_cases hlen : ((getExecutionDirs (entries ++ [⟨newName, true⟩])).length : Int) > maxN
      · rw [if_pos hlen]
      · rw [if_neg hlen]
        have hz : (getExecutionDirs (entries ++ [⟨newName, true⟩])).length - maxN.toNat = 0 := by
          omega
        rw [hz, List.drop_zero]
    refine ⟨?_, hsurv, ?_, ?_, ?_⟩
    · rw [hsurv, List.length_drop]
      omega
    · simp only [pruneDeleted, if_neg hnp]
      by_cases hlen : ((getExecutionDirs (entries ++ [⟨newName, true⟩])).length : Int) > maxN
      · rw [if_pos hlen]
      · rw [if_neg hlen]
        have hz : (getExecutionDirs (entries ++ [⟨newName, true⟩])).length - maxN.toNat = 0 := by
          omega
        rw [hz, List.take_zero]
    · simpa [getExecutionDirs] using
        List.sorted_insertionSort tsLe
          (((entries ++ [(⟨newName, true⟩ : ExecDirEnt)]).filter
            (fun e => e.isDir && strStartsWith e.name "exec-")).map
            (fun e => (e.name, execNameTimestamp e.name)))
    · intro ws
      rw [cleanupExecutionDir, if_pos h]
  · intro h
    refine ⟨?_, ?_, ?_⟩
    · simp only [allocThenPrune, pruneSurvivors, if_pos h]
    · simp only [pruneDeleted, if_pos h]
    · intro ws e he
      rw [cleanupExecutionDir, if_neg (by omega)] at he
      simpa using (List.mem_filter.mp he).2

/-- C5 witness: retention 2 with three directories (one of them not an
`exec-` workspace) plus a fresh allocation. -/
theorem c5_prune_retention_witness :
    ((allocThenPrune 2 [⟨"exec-100-aa", true⟩, ⟨"exec-200-bb", true⟩, ⟨"x", false⟩]
      "exec-300-cc").length : Int) ≤ 2 ∧
    cleanupExecutionDir 2 [⟨"exec-100-aa", true⟩, ⟨"exec-200-bb", true⟩, ⟨"x", false⟩]
      "exec-300-cc" = [⟨"exec-100-aa", true⟩, ⟨"exec-200-bb", true⟩, ⟨"x", false⟩] := by
  have h := (c5_prune_retention 2
    [⟨"exec-100-aa", true⟩, ⟨"exec-200-bb", true⟩, ⟨"x", false⟩] "exec-300-cc").1 (by decide)
  exact ⟨h.1, h.2.2.2.2 "exec-300-cc"⟩

/-! ## Claim C9 -/

/-- C9.  A request missing (or with a falsy) `code` or `cacheKey` is
answered 400 with `{success:false, error}` before anything happens: the
effect trace is empty — no workspace allocation, no extraction use, no
cache access — and the file-system world is untouched. -/
theorem c9_validation (env : ControllerEnv) (w : FsWorld) (cacheRoot execRoot : List String)
    (req : ControllerReq)
    (h : jsFalsyStr req.code = true ∨ jsFalsyStr req.cacheKey = true) :
    (controllerExecute env w cacheRoot execRoot req).resp.status = 400 ∧
    (controllerExecute env w cacheRoot execRoot req).resp.success = false ∧
    (controllerExecute env w cacheRoot execRoot req).resp.error.isSome = true ∧
    (controllerExecute env w cacheRoot execRoot req).fx = [] ∧
    (controllerExecute env w cacheRoot execRoot req).world = w := by
  rcases h with h | h
  · simp [controllerExecute, h]
  · by_cases hc : jsFalsyStr req.code = true
    · simp [controllerExecute, hc]
    · simp only [Bool.not_eq_true] at hc
      simp [controllerExecute, hc, h]

/-- C9 witness: a request with no `code` at all. -/
theorem c9_validation_witness :
    (controllerExecute ⟨⟨true, true, true, fun _ => none⟩, true, "exec-1-a", 100⟩
        ⟨fun _ => false⟩ ["cache"] ["executions"] ⟨none, some "k", false, false⟩).resp.status =
      400 ∧
    (controllerExecute ⟨⟨true, true, true, fun _ => none⟩, true, "exec-1-a", 100⟩
        ⟨fun _ => false⟩ ["cache"] ["executions"] ⟨none, some "k", false, false⟩).fx = [] := by
  have h := c9_validation ⟨⟨true, true, true, fun _ => none⟩, true, "exec-1-a", 100⟩
    ⟨fun _ => false⟩ ["cache"] ["executions"] ⟨none, some "k", false, false⟩ (Or.inl rfl)
  exact ⟨h.1, h.2.2.2.1⟩

/-! ## Claim C10 -/

theorem freshInstall_results (env : InstallEnv) (w : FsWorld) (deps : List (String × String))
    (codeDir cachePath : List String) (preFx : List Effect)
    (hcfg : env.pmCfgOk = true) (hpm : env.pmOk = true) :
    (∃ vs, (freshInstall env w deps codeDir cachePath false preFx).outcome = .ok vs) ∧
    Effect.pmInstallFx ∈ (freshInstall env w deps codeDir cachePath false preFx).fx ∧
    (freshInstall env w deps codeDir cachePath false preFx).world.pathExists cachePath =
      true := by
  have hne : cachePath ≠ cachePath ++ ["node_modules"] := ne_append_singleton _ _
  by_cases hex : ((w.addPath (codeDir ++ ["package.json"])).addPath
      (cachePath ++ ["pnpm-store"])).addPath (codeDir ++ ["node_modules"])
      |>.pathExists cachePath
  · simp [freshInstall, hcfg, hpm, hex, FsWorld.addPath, hne]
  · simp only [Bool.not_eq_true] at hex
    simp [freshInstall, hcfg, hpm, hex, FsWorld.addPath, hne]

theorem installDeps_miss (env : InstallEnv) (w : FsWorld) (deps : List (String × String))
    (codeDir cachePath : List String)
    (hd : deps ≠ [])
    (hcm : w.pathExists (cachePath ++ ["node_modules"]) = false) :
    installDependenciesM env w deps codeDir cachePath false =
      freshInstall env w deps codeDir cachePath false
        [Effect.accessFx (cachePath ++ ["node_modules"])] := by
  have hlen : ¬ deps.length = 0 := by simpa [List.length_eq_zero] using hd
  simp [installDependenciesM, hlen, hcm]

/-- C10 (implicit behaviour).  On a debug request with
`forceUpdate = false`, a non-empty dependency set and a cache miss, the
resolver takes the fresh-install path (a package-manager install appears
in the trace), which populates the cache entry; the controller then
computes `usedCache = cacheInfo.exists && !forceUpdate` from the
post-install state, so the response reports `usedCache = true` even
though the reuse fast path was never taken. -/
theorem c10_used_cache (env : ControllerEnv) (w : FsWorld) (cacheRoot execRoot : List String)
    (c k : String) (deps : List (String × String))
    (hc : c ≠ "") (hk : k ≠ "")
    (hx : extractDependencies c = .ok deps)
    (hd : deps ≠ [])
    (hcfg : env.install.pmCfgOk = true) (hpm : env.install.pmOk = true)
    (hmiss : w.pathExists (cacheRoot ++ [k, "node_modules"]) = false)
    (hwne : execRoot ++ [env.wsName] ≠ cacheRoot ++ [k, "node_modules"]) :
    (controllerExecute env w cacheRoot execRoot ⟨some c, some k, true, false⟩).resp.usedCache =
      some true ∧
    Effect.pmInstallFx ∈
      (controllerExecute env w cacheRoot execRoot ⟨some c, some k, true, false⟩).fx := by
  have hw0 : (w.addPath (execRoot ++ [env.wsName])).pathExists
      ((cacheRoot ++ [k]) ++ ["node_modules"]) = false := by
    simp only [FsWorld.addPath]
    rw [if_neg]
    · simpa using hmiss
    · simpa using Ne.symm hwne
  have hrun := installDeps_miss env.install (w.addPath (execRoot ++ [env.wsName])) deps
    (execRoot ++ [env.wsName]) (cacheRoot ++ [k]) hd hw0
  have hres := freshInstall_results env.install (w.addPath (execRoot ++ [env.wsName])) deps
    (execRoot ++ [env.wsName]) (cacheRoot ++ [k])
    [Effect.accessFx ((cacheRoot ++ [k]) ++ ["node_modules"])] hcfg hpm
  rcases hres with ⟨⟨vs, hvs⟩, hmem, hpath⟩
  simp only [controllerExecute, Option.getD_some]
  rw [if_neg (by simp [jsFalsyStr, hc])]
  rw [if_neg (by simp [jsFalsyStr, hk])]
  rw [hx]
  simp only [hrun]
  rw [hvs]
  simp only [List.append_assoc, List.cons_append, List.nil_append] at hpath hmem
  constructor
  · simp [hpath]
  · simp [hmem]

set_option maxRecDepth 400000 in
/-- C10 witness: a concrete cache-miss debug request that installs
`left-pad` fresh and still reports `usedCache = true`. -/
theorem c10_used_cache_witness :
    (controllerExecute ⟨⟨true, true, true, fun _ => none⟩, true, "exec-1-a", 100⟩
        ⟨fun _ => false⟩ ["cache"] ["executions"]
        ⟨some "require(\x27left-pad\x27)", some "k", true, false⟩).resp.usedCache =
      some true ∧
    Effect.pmInstallFx ∈
      (controllerExecute ⟨⟨true, true, true, fun _ => none⟩, true, "exec-1-a", 100⟩
        ⟨fun _ => false⟩ ["cache"] ["executions"]
        ⟨some "require(\x27left-pad\x27)", some "k", true, false⟩).fx := by
  have h := c10_used_cache ⟨⟨true, true, true, fun _ => none⟩, true, "exec-1-a", 100⟩
    ⟨fun _ => false⟩ ["cache"] ["executions"] "require(\x27left-pad\x27)" "k"
    [("left-pad", "latest")] (by decide) (by decide) (by decide) (by decide) rfl rfl rfl
    (by decide)
  exact h

/-! ## Claim C2 -/

theorem checkAccessFx_cons (w : FsWorld) (cm : List String) (p : String) (ps : List String) :
    checkAccessFx w cm (p :: ps) =
      (match depProbePaths cm p with
       | some qs => (accessAttempts w qs).map Effect.accessFx
       | none => []) ++ checkAccessFx w cm ps := by
  simp [checkAccessFx]

theorem checkAccessFx_shape (w : FsWorld) (cm : List String) (pkgs : List String) :
    ∀ e ∈ checkAccessFx w cm pkgs, ∃ p, e = Effect.accessFx p := by
  induction pkgs with
  | nil =>
    intro e he
    simp [checkAccessFx] at he
  | cons p ps ih =>
    intro e he
    rw [checkAccessFx_cons] at he
    rcases List.mem_append.mp he with h1 | h2
    · rcases hpp : depProbePaths cm p with _ | qs
      · rw [hpp] at h1
        simp at h1
      · rw [hpp] at h1
        rcases List.mem_map.mp h1 with ⟨q, _, rfl⟩
        exact ⟨q, rfl⟩
    · exact ih e h2

theorem depPresent_all (w : FsWorld) (cm : List String) (pkgs : List String)
    (hmiss : checkForMissingDependencies w cm pkgs = []) :
    ∀ p ∈ pkgs, depPresent w cm p = true := by
  intro p hp
  have := List.filter_eq_nil_iff.mp hmiss p hp
  simpa using this

/-- C2.  With `forceUpdate` off, a non-empty dependency set and an
existing cache `node_modules`, a fully-covering cache entry is reused:
the resolver succeeds with the versions read from the tree, performs no
package-manager invocation, symlinks the cache `node_modules` into the
workspace (adding a copy only when symlinking fails), and the
completeness check it passed means every plain package directory
contains its `package.json`, and every scoped package's scope
directory, package directory and `package.json` all exist. -/
theorem c2_reuse_fast_path (env : InstallEnv) (w : FsWorld) (deps : List (String × String))
    (codeDir cachePath : List String)
    (hd : deps ≠ [])
    (hcache : w.pathExists (cachePath ++ ["node_modules"]) = true)
    (hmiss : checkForMissingDependencies w (cachePath ++ ["node_modules"])
      (deps.map (fun p => p.1)) = []) :
    (installDependenciesM env w deps codeDir cachePath false).outcome =
      .ok ((deps.map (fun p => p.1)).map
        (fun p => (p, (env.pkgVersion p).getD "unknown"))) ∧
    (∀ e ∈ (installDependenciesM env w deps codeDir cachePath false).fx,
      isPackageManagerFx e = false) ∧
    Effect.symlinkFx (cachePath ++ ["node_modules"]) (codeDir ++ ["node_modules"]) ∈
      (installDependenciesM env w deps codeDir cachePath false).fx ∧
    (env.symlinkOk = false →
      Effect.copyFx (cachePath ++ ["node_modules"]) (codeDir ++ ["node_modules"]) ∈
        (installDependenciesM env w deps codeDir cachePath false).fx) ∧
    (env.symlinkOk = true →
      ∀ src dst, Effect.copyFx src dst ∉
        (installDependenciesM env w deps codeDir cachePath false).fx) ∧
    (installDependenciesM env w deps codeDir cachePath false).world =
      w.addPath (codeDir ++ ["node_modules"]) ∧
    (∀ p ∈ deps.map (fun x => x.1),
      (strStartsWith p "@" = false →
        w.pathExists (cachePath ++ ["node_modules", p]) = true ∧
        w.pathExists (cachePath ++ ["node_modules", p, "package.json"]) = true) ∧
      (∀ scope name rest, strStartsWith p "@" = true →
        splitOnChar '/' p.data = scope :: name :: rest →
        w.pathExists (cachePath ++ ["node_modules", String.mk scope]) = true ∧
        w.pathExists (cachePath ++ ["node_modules", String.mk scope, String.mk name]) =
          true ∧
        w.pathExists (cachePath ++
          ["node_modules", String.mk scope, String.mk name, "package.json"]) = true)) := by
  have hlen : ¬ deps.length = 0 := by simpa [List.length_eq_zero] using hd
  have hpres := depPresent_all w (cachePath ++ ["node_modules"]) (deps.map (fun p => p.1)) hmiss
  have hfx : (installDependenciesM env w deps codeDir cachePath false).fx =
      ([Effect.accessFx (cachePath ++ ["node_modules"])] ++
        checkAccessFx w (cachePath ++ ["node_modules"]) (deps.map (fun p => p.1))) ++
      (if env.symlinkOk then
        [Effect.symlinkFx (cachePath ++ ["node_modules"]) (codeDir ++ ["node_modules"])]
      else
        [Effect.symlinkFx (cachePath ++ ["node_modules"]) (codeDir ++ ["node_modules"]),
          Effect.copyFx (cachePath ++ ["node_modules"]) (codeDir ++ ["node_modules"])]) ++
      (deps.map (fun p => p.1)).map
        (fun p => Effect.readFx (codeDir ++ ["node_modules", p, "package.json"])) := by
    by_cases hs : env.symlinkOk
    · simp [installDependenciesM, hlen, hcache, hmiss, hs, getInstalledVersions]
    · simp only [Bool.not_eq_true] at hs
      simp [installDependenciesM, hlen, hcache, hmiss, hs, getInstalledVersions]
  refine ⟨?_, ?_, ?_, ?_, ?_, ?_, ?_⟩
  · by_cases hs : env.symlinkOk
    · simp [installDependenciesM, hlen, hcache, hmiss, hs, getInstalledVersions]
    · simp only [Bool.not_eq_true] at hs
      simp [installDependenciesM, hlen, hcache, hmiss, hs, getInstalledVersions]
  · intro e he
    rw [hfx] at he
    rcases List.mem_append.mp he with h1 | h2
    · rcases List.mem_append.mp h1 with h3 | h4
      · rcases List.mem_append.mp h3 with h5 | h6
        · simp at h5
          subst h5
          rfl
        · rcases checkAccessFx_shape w _ _ e h6 with ⟨q, rfl⟩
          rfl
      · by_cases hs : env.symlinkOk
        · rw [if_pos hs] at h4
          simp at h4
          subst h4
          rfl
        · simp only [Bool.not_eq_true] at hs
          rw [if_neg (by simp [hs])] at h4
          simp at h4
          rcases h4 with h4 | h4 <;> subst h4 <;> rfl
    · rcases List.mem_map.mp h2 with ⟨q, _, rfl⟩
      rfl
  · rw [hfx]
    by_cases hs : env.symlinkOk
    · simp [hs]
    · simp only [Bool.not_eq_true] at hs
      simp [hs]
  · intro hs
    rw [hfx, hs]
    simp
  · intro hs src dst hmem
    rw [hfx] at hmem
    rcases List.mem_append.mp hmem with h1 | h2
    · rcases List.mem_append.mp h1 with h3 | h4
      · rcases List.mem_append.mp h3 with h5 | h6
        · simp at h5
        · rcases checkAccessFx_shape w _ _ _ h6 with ⟨q, hq⟩
          simp at hq
      · rw [if_pos hs] at h4
        simp at h4
    · rcases List.mem_map.mp h2 with ⟨q, _, hq⟩
      simp at hq
  · by_cases hs : env.symlinkOk
    · simp [installDependenciesM, hlen, hcache, hmiss, hs]
    · simp only [Bool.not_eq_true] at hs
      simp [installDependenciesM, hlen, hcache, hmiss, hs]
  · intro p hp
    have hdp := hpres p hp
    constructor
    · intro hns
      rw [depPresent, depProbePaths, if_neg (by simp [hns])] at hdp
      simp [List.all_eq_true] at hdp
      exact ⟨hdp.1, hdp.2⟩
    · intro scope name rest hsc hsplit
      rw [depPresent, depProbePaths, if_pos (by simp [hsc]), hsplit] at hdp
      simp [List.all_eq_true] at hdp
      exact ⟨hdp.1, hdp.2.1, hdp.2.2⟩

/-- C2 witness: a cache entry covering a plain and a scoped package is
reused via symlink with no package-manager run. -/
theorem c2_reuse_fast_path_witness :
    (installDependenciesM ⟨true, true, true, fun _ => some "1.0.0"⟩
        ⟨fun p => decide (p ∈ [["cache", "k", "node_modules"],
          ["cache", "k", "node_modules", "left-pad"],
          ["cache", "k", "node_modules", "left-pad", "package.json"],
          ["cache", "k", "node_modules", "@s"],
          ["cache", "k", "node_modules", "@s", "n"],
          ["cache", "k", "node_modules", "@s", "n", "package.json"]])⟩
        [("left-pad", "latest"), ("@s/n", "latest")]
        ["executions", "exec-1-a"] ["cache", "k"] false).outcome =
      .ok [("left-pad", "1.0.0"), ("@s/n", "1.0.0")] ∧
    Effect.symlinkFx (["cache", "k"] ++ ["node_modules"])
        (["executions", "exec-1-a"] ++ ["node_modules"]) ∈
      (installDependenciesM ⟨true, true, true, fun _ => some "1.0.0"⟩
        ⟨fun p => decide (p ∈ [["cache", "k", "node_modules"],
          ["cache", "k", "node_modules", "left-pad"],
          ["cache", "k", "node_modules", "left-pad", "package.json"],
          ["cache", "k", "node_modules", "@s"],
          ["cache", "k", "node_modules", "@s", "n"],
          ["cache", "k", "node_modules", "@s", "n", "package.json"]])⟩
        [("left-pad", "latest"), ("@s/n", "latest")]
        ["executions", "exec-1-a"] ["cache", "k"] false).fx := by
  have h := c2_reuse_fast_path ⟨true, true, true, fun _ => some "1.0.0"⟩
    ⟨fun p => decide (p ∈ [["cache", "k", "node_modules"],
      ["cache", "k", "node_modules", "left-pad"],
      ["cache", "k", "node_modules", "left-pad", "package.json"],
      ["cache", "k", "node_modules", "@s"],
      ["cache", "k", "node_modules", "@s", "n"],
      ["cache", "k", "node_modules", "@s", "n", "package.json"]])⟩
    [("left-pad", "latest"), ("@s/n", "latest")]
    ["executions", "exec-1-a"] ["cache", "k"] (by decide) (by decide) (by decide)
  exact ⟨h.1, h.2.2.1⟩

/-! ## Claim C6 -/

theorem listStartsWith_append {α : Type} [DecidableEq α] (pat rest : List α) :
    listStartsWith (pat ++ rest) pat = true := by
  induction pat with
  | nil => exact listStartsWith_nil rest
  | cons a as ih => simp [listStartsWith, ih]

/-- C6 (amended).  A request whose extracted dependency set is empty
completes (status 200) with the resolver returning success and an empty
version map immediately; when `options.debug` is false the effect trace
contains no cache-root access and no package-manager invocation, the
workspace is left without a `node_modules`, and every path under the
cache root is exactly as before.  (With `options.debug = true` the
orchestrator does read the cache root for telemetry — see the
counterexample.) -/
theorem c6_empty_deps (env : ControllerEnv) (w : FsWorld) (cacheRoot execRoot : List String)
    (c k : String)
    (hc : c ≠ "") (hk : k ≠ "")
    (hx : extractDependencies c = .ok [])
    (hra : listStartsWith (execRoot ++ [env.wsName]) cacheRoot = false)
    (hrb : listStartsWith cacheRoot (execRoot ++ [env.wsName]) = false)
    (hnm : w.pathExists (execRoot ++ [env.wsName, "node_modules"]) = false) :
    (controllerExecute env w cacheRoot execRoot ⟨some c, some k, false, false⟩).resp.status =
      200 ∧
    installDependenciesM env.install (w.addPath (execRoot ++ [env.wsName])) []
      (execRoot ++ [env.wsName]) (cacheRoot ++ [k]) false =
      ⟨.ok [], [], w.addPath (execRoot ++ [env.wsName])⟩ ∧
    (∀ e ∈ (controllerExecute env w cacheRoot execRoot ⟨some c, some k, false, false⟩).fx,
      effectTouchesCache cacheRoot e = false ∧ isPackageManagerFx e = false) ∧
    (controllerExecute env w cacheRoot execRoot
      ⟨some c, some k, false, false⟩).world.pathExists
      (execRoot ++ [env.wsName, "node_modules"]) = false ∧
    (∀ p, listStartsWith p cacheRoot = true →
      (controllerExecute env w cacheRoot execRoot
        ⟨some c, some k, false, false⟩).world.pathExists p = w.pathExists p) := by
  have hinst : installDependenciesM env.install (w.addPath (execRoot ++ [env.wsName])) []
      (execRoot ++ [env.wsName]) (cacheRoot ++ [k]) false =
      ⟨.ok [], [], w.addPath (execRoot ++ [env.wsName])⟩ := by
    simp [installDependenciesM]
  have hctrl : controllerExecute env w cacheRoot execRoot ⟨some c, some k, false, false⟩ =
      ⟨⟨200, env.runnerOk, if env.runnerOk = true then none else some "execution failed",
        none⟩,
        [Effect.mkWorkspaceFx env.wsName, Effect.pruneFx] ++ [Effect.spawnNodeFx] ++
          (if env.maxExecutionDirs > 0 then []
           else [Effect.rmFx (execRoot ++ [env.wsName])]),
        if env.maxExecutionDirs > 0 then w.addPath (execRoot ++ [env.wsName])
        else (w.addPath (execRoot ++ [env.wsName])).rmTree (execRoot ++ [env.wsName])⟩ := by
    simp only [controllerExecute, Option.getD_some]
    rw [if_neg (by simp [jsFalsyStr, hc])]
    rw [if_neg (by simp [jsFalsyStr, hk])]
    rw [hx]
    simp only [hinst]
    simp
  have hcodene : execRoot ++ [env.wsName, "node_modules"] ≠ execRoot ++ [env.wsName] := by
    intro hh
    have := congrArg List.length hh
    simp at this
  refine ⟨by rw [hctrl], hinst, ?_, ?_, ?_⟩
  · intro e he
    rw [hctrl] at he
    by_cases hmx : env.maxExecutionDirs > 0
    · simp only [hmx, if_true] at he
      simp at he
      rcases he with rfl | rfl | rfl
      · exact ⟨rfl, rfl⟩
      · exact ⟨rfl, rfl⟩
      · exact ⟨rfl, rfl⟩
    · simp only [hmx, if_false] at he
      simp at he
      rcases he with rfl | rfl | rfl | rfl
      · exact ⟨rfl, rfl⟩
      · exact ⟨rfl, rfl⟩
      · exact ⟨rfl, rfl⟩
      · refine ⟨?_, rfl⟩
        simpa [effectTouchesCache] using hra
  · rw [hctrl]
    by_cases hmx : env.maxExecutionDirs > 0
    · simp only [hmx, if_true, FsWorld.addPath]
      rw [if_neg hcodene]
      exact hnm
    · simp only [hmx, if_false, FsWorld.rmTree]
      rw [show execRoot ++ [env.wsName, "node_modules"] =
        (execRoot ++ [env.wsName]) ++ ["node_modules"] from by simp]
      rw [listStartsWith_append]
      simp
  · intro p hp
    rw [hctrl]
    have hpne : p ≠ execRoot ++ [env.wsName] := by
      intro hh
      subst hh
      rw [hp] at hra
      exact absurd hra (by simp)
    have hnp : listStartsWith p (execRoot ++ [env.wsName]) = false := by
      by_cases hq : listStartsWith p (execRoot ++ [env.wsName]) = true
      · rcases startsWith_comparable p (execRoot ++ [env.wsName]) cacheRoot hq hp with
          h1 | h2
        · rw [h1] at hra
          exact absurd hra (by simp)
        · rw [h2] at hrb
          exact absurd hrb (by simp)
      · simpa using hq
    by_cases hmx : env.maxExecutionDirs > 0
    · simp only [hmx, if_true, FsWorld.addPath]
      rw [if_neg hpne]
    · simp only [hmx, if_false, FsWorld.rmTree, FsWorld.addPath]
      rw [hnp]
      simp [hpne]

/-- C6 witness: a concrete no-dependency, non-debug request. -/
theorem c6_empty_deps_witness :
    (controllerExecute ⟨⟨true, true, true, fun _ => none⟩, true, "exec-1-a", 100⟩
        ⟨fun _ => false⟩ ["cache"] ["executions"]
        ⟨some "x", some "k", false, false⟩).resp.status = 200 ∧
    (controllerExecute ⟨⟨true, true, true, fun _ => none⟩, true, "exec-1-a", 100⟩
        ⟨fun _ => false⟩ ["cache"] ["executions"]
        ⟨some "x", some "k", false, false⟩).world.pathExists
      (["executions"] ++ ["exec-1-a", "node_modules"]) = false := by
  have h := c6_empty_deps ⟨⟨true, true, true, fun _ => none⟩, true, "exec-1-a", 100⟩
    ⟨fun _ => false⟩ ["cache"] ["executions"] "x" "k" (by decide) (by decide) (by decide)
    (by decide) (by decide) rfl
  exact ⟨h.1, h.2.2.2.1⟩

set_option maxRecDepth 400000 in
/-- C6 counterexample: the same empty-dependency request with
`options.debug = true` completes, yet its trace reads the cache root
(`getCacheEntries`), so the claim that such a request involves no
cache-root interaction fails. -/
theorem c6_counterexample :
    Effect.readCacheDirFx ∈
      (controllerExecute ⟨⟨true, true, true, fun _ => none⟩, true, "exec-1-a", 100⟩
        ⟨fun _ => false⟩ ["cache"] ["executions"]
        ⟨some "x", some "k", true, false⟩).fx ∧
    effectTouchesCache ["cache"] Effect.readCacheDirFx = true ∧
    (controllerExecute ⟨⟨true, true, true, fun _ => none⟩, true, "exec-1-a", 100⟩
        ⟨fun _ => false⟩ ["cache"] ["executions"]
        ⟨some "x", some "k", true, false⟩).resp.status = 200 := by
  exact ⟨by decide, rfl, by decide⟩
